import Mathlib

/-!
Verification of the YAtiML type-directed recognition, normalization and
construction pipeline (`src/yatiml/`), as a shallow embedding in Lean 4.

Conventions of the embedding:

* `yaml.Node` trees (`yaml.ScalarNode` / `yaml.SequenceNode` /
  `yaml.MappingNode`) become the inductive `YNode`.  Node values are the
  raw strings held by the YAML parser; tags are strings such as
  `tag:yaml.org,2002:int`.  Source positions (`start_mark`) are not
  modelled; error messages are built exactly as in the Python sources
  minus the leading position lines.
* Python type objects handed to `Recognizer.recognize` become the
  inductive `TypeDesc`.  Registered user classes are referred to by name.
* The class registry (`Loader._registered_classes.values()`, an
  insertion-ordered dict) becomes a `List ClassInfo` in registration
  order.  Class-level facts that Python obtains by reflection
  (`issubclass(c, enum.Enum)`, `is_string_like`, `is_abstract`,
  `'_yatiml_recognize' in c.__dict__`, `class_subobjects(c)`,
  `hasattr(c, 'yatiml_savorize')`, `'_yatiml_sweeten' in c.__dict__`)
  become fields of `ClassInfo`.  Custom `_yatiml_recognize` hooks are
  modelled as pure functions returning `none` on acceptance and
  `some message` for a raised `RecognitionError`.
* Python code mutates nodes in place (notably the enum branch of
  `Recognizer.__recognize_user_class` rewrites `node.tag`); the embedding
  threads the possibly-updated node through every call and returns it.
* Raised exceptions that abort recognition (`RuntimeError`,
  `SeasoningError` escaping from `get_attribute`) and fuel exhaustion of
  the recursion are both modelled as `none`; recognition results proper
  are `some (types, error, node)`.
-/

/-- A YAML node: the value model of `yaml.ScalarNode`, `yaml.SequenceNode`
and `yaml.MappingNode`.  The `tag` field is the node's current tag. -/
inductive YNode where
  | scalar (tag : String) (value : String)
  | sequence (tag : String) (items : List YNode)
  | mapping (tag : String) (entries : List (YNode × YNode))
deriving Repr

/-- The tag of a node (`node.tag` in Python). -/
def YNode.tag : YNode → String
  | .scalar t _ => t
  | .sequence t _ => t
  | .mapping t _ => t

/-- Type descriptors: the Python type expressions that YAtiML recognizes
against (`str`, `int`, `float`, `bool`, `yatiml.bool_union_fix`, `None`,
`datetime.date`, `Union[...]`, `List[...]`, `Dict[...]`, a registered
user class, `Any`). -/
inductive TypeDesc where
  | tStr
  | tInt
  | tFloat
  | tBool
  | tBoolUnionFix
  | tNull
  | tDate
  | tUnion (alts : List TypeDesc)
  | tList (item : TypeDesc)
  | tDict (key : TypeDesc) (value : TypeDesc)
  | tClass (name : String)
  | tAny
deriving Repr

/-- A recognition error tree, `yatiml.irecognizer.RecError`: a message and
a list of possible causes. -/
inductive RecErr where
  | mk (msg : String) (causes : List RecErr)
deriving Repr

/-- The no-error value `REC_OK = ('', [])`. -/
def RecErr.ok : RecErr := .mk "" []

/-- The message component of a recognition error. -/
def RecErr.msg : RecErr → String
  | .mk m _ => m

/-- The causes component of a recognition error. -/
def RecErr.causes : RecErr → List RecErr
  | .mk _ cs => cs

/-- The YAML tags of the built-in scalar types
(`yatiml.util.scalar_type_to_tag`). -/
def scalar_type_to_tag : TypeDesc → Option String
  | .tStr => some "tag:yaml.org,2002:str"
  | .tInt => some "tag:yaml.org,2002:int"
  | .tFloat => some "tag:yaml.org,2002:float"
  | .tBool => some "tag:yaml.org,2002:bool"
  | .tBoolUnionFix => some "tag:yaml.org,2002:bool"
  | .tNull => some "tag:yaml.org,2002:null"
  | .tDate => some "tag:yaml.org,2002:timestamp"
  | _ => none

/-- Whether a type is one of the keys of `scalar_type_to_tag` that
`Recognizer.recognize` dispatches to `__recognize_scalar`
(`str, int, float, bool, bool_union_fix, date, None, type(None)`). -/
def isScalarType (t : TypeDesc) : Bool :=
  (scalar_type_to_tag t).isSome

/-- `yatiml.util.cjoin`: joins words into a conjunctive clause, e.g.
`cjoin "and" ["x", "y", "z"] = "x, y and z"`. -/
def cjoin (conjunction : String) (words : List String) : String :=
  let lastIdx := words.length - 1
  (words.enum.foldl (fun result (i, w) =>
    let result := if i > 0 then
      (if i < lastIdx then result ++ ", " else result ++ " " ++ conjunction ++ " ")
      else result
    result ++ w) "")

/-- The Python `repr` of a list of strings, as produced by
`'{}'.format([...])` in `type_to_desc` for unions. -/
def pyStrListRepr (xs : List String) : String :=
  "[" ++ String.intercalate ", " (xs.map (fun s => "'" ++ s ++ "'")) ++ "]"

mutual

/-- `yatiml.util.type_to_desc`: human-readable description of a type.
A registered class and `bool_union_fix` both land in the final
`'a(n) {name}'` case; `date` does as well. -/
def type_to_desc : TypeDesc → String
  | .tStr => "a string"
  | .tInt => "an int"
  | .tFloat => "a float"
  | .tBool => "a boolean"
  | .tNull => "a null value"
  | .tUnion alts => "any one of " ++ pyStrListRepr (typeDescList alts)
  | .tList item => "a list of (" ++ type_to_desc item ++ ")"
  | .tDict _ value => "a dict of string to (" ++ type_to_desc value ++ ")"
  | .tAny => "a string, int, float, boolean, null value, list or dict"
  | .tBoolUnionFix => "a(n) bool_union_fix"
  | .tDate => "a(n) date"
  | .tClass name => "a(n) " ++ name

/-- Descriptions of a list of types (the list comprehension in the union
case of `type_to_desc`). -/
def typeDescList : List TypeDesc → List String
  | [] => []
  | t :: ts => type_to_desc t :: typeDescList ts

end

mutual

/-- Boolean equality of type descriptors, modelling Python `==` on the
type objects used as set elements by the recognizer. -/
def tdBeq : TypeDesc → TypeDesc → Bool
  | .tStr, .tStr => true
  | .tInt, .tInt => true
  | .tFloat, .tFloat => true
  | .tBool, .tBool => true
  | .tBoolUnionFix, .tBoolUnionFix => true
  | .tNull, .tNull => true
  | .tDate, .tDate => true
  | .tAny, .tAny => true
  | .tUnion xs, .tUnion ys => tdBeqList xs ys
  | .tList x, .tList y => tdBeq x y
  | .tDict k v, .tDict k' v' => tdBeq k k' && tdBeq v v'
  | .tClass n, .tClass n' => n == n'
  | _, _ => false

/-- Boolean equality of lists of type descriptors. -/
def tdBeqList : List TypeDesc → List TypeDesc → Bool
  | [], [] => true
  | x :: xs, y :: ys => tdBeq x y && tdBeqList xs ys
  | _, _ => false

end

mutual

/-- Boolean equality of type descriptors is reflexive. -/
theorem tdBeq_refl : (a : TypeDesc) → tdBeq a a = true
  | .tStr | .tInt | .tFloat | .tBool | .tBoolUnionFix | .tNull | .tDate
  | .tAny => rfl
  | .tUnion xs => tdBeqList_refl xs
  | .tList x => tdBeq_refl x
  | .tDict k v => by
      have hk := tdBeq_refl k
      have hv := tdBeq_refl v
      simp [tdBeq, hk, hv]
  | .tClass n => by simp [tdBeq]

/-- Boolean equality of lists of type descriptors is reflexive. -/
theorem tdBeqList_refl : (xs : List TypeDesc) → tdBeqList xs xs = true
  | [] => rfl
  | x :: xs => by
      have h1 := tdBeq_refl x
      have h2 := tdBeqList_refl xs
      simp [tdBeqList, h1, h2]

end

/-- Membership test for the recognizer's result sets (Python `in` on a
`set` of types). -/
def tdContains (s : List TypeDesc) (t : TypeDesc) : Bool :=
  s.any (fun a => tdBeq a t)

/-- Adding one type to a result set (`set` semantics: no duplicates). -/
def tdInsert (s : List TypeDesc) (t : TypeDesc) : List TypeDesc :=
  if tdContains s t then s else s ++ [t]

/-- Union of two result sets (`recognized_types |= recognized_type`),
keeping the left set's order and appending new elements. -/
def tdUnion (s u : List TypeDesc) : List TypeDesc :=
  u.foldl tdInsert s

theorem tdContains_of_mem {s : List TypeDesc} {t : TypeDesc} (h : t ∈ s) :
    tdContains s t = true := by
  simp only [tdContains, List.any_eq_true]
  exact ⟨t, h, tdBeq_refl t⟩

theorem mem_of_tdBeq_tClass {x : TypeDesc} {n : String}
    (h : tdBeq x (.tClass n) = true) : x = .tClass n := by
  cases x <;> simp [tdBeq] at h
  simp [h]

theorem mem_of_tdBeq_tBool {x : TypeDesc}
    (h : tdBeq x .tBool = true) : x = .tBool := by
  cases x <;> simp [tdBeq] at h
  rfl

theorem mem_of_tdBeq_tBoolUnionFix {x : TypeDesc}
    (h : tdBeq x .tBoolUnionFix = true) : x = .tBoolUnionFix := by
  cases x <;> simp [tdBeq] at h
  rfl

theorem mem_tdInsert {x t : TypeDesc} {s : List TypeDesc}
    (h : x ∈ tdInsert s t) : x ∈ s ∨ x = t := by
  unfold tdInsert at h
  by_cases hc : tdContains s t = true
  · simp [hc] at h
    exact Or.inl h
  · simp [hc] at h
    simpa using h

theorem mem_tdUnion {x : TypeDesc} {s u : List TypeDesc}
    (h : x ∈ tdUnion s u) : x ∈ s ∨ x ∈ u := by
  induction u generalizing s with
  | nil => exact Or.inl h
  | cons y ys ih =>
    rcases ih h with h' | h'
    · rcases mem_tdInsert h' with h'' | h''
      · exact Or.inl h''
      · exact Or.inr (h'' ▸ List.mem_cons_self _ _)
    · exact Or.inr (List.mem_cons_of_mem _ h')

/-- Lookup in an association list used as difflib's `j2len` dict, with
default 0 (`j2len.get(j - 1, 0)`). -/
def alGet (l : List (Nat × Nat)) (k : Nat) : Nat :=
  match l.find? (fun p => p.1 == k) with
  | some p => p.2
  | none => 0

/-- One row (one value of `i`) of `difflib.SequenceMatcher.
find_longest_match`'s dynamic program: scans the positions `j` of `b`
in `[blo, bhi)` holding the character `a[i]`, in ascending order,
extending runs recorded in the previous row `j2len`.  Returns the updated
best block and the new row.  `diagnose_missing_key` depends on difflib
(Python standard library, not part of this repository); it is modelled
here faithfully, without the junk heuristics, which never trigger for
the short mapping keys involved (autojunk applies only to sequences of
200+ elements and there is no junk predicate). -/
def flmRow (aCh : Char) (b : List Char) (blo bhi i : Nat)
    (j2len : List (Nat × Nat)) (best : Nat × Nat × Nat) :
    (Nat × Nat × Nat) × List (Nat × Nat) :=
  (List.range' blo (bhi - blo)).foldl
    (fun st j =>
      if b.getD j ' ' == aCh then
        let k := if j = 0 then 1 else alGet j2len (j - 1) + 1
        let best' := if k > st.1.2.2 then (i + 1 - k, j + 1 - k, k) else st.1
        (best', (j, k) :: st.2)
      else st)
    (best, [])

/-- `difflib.SequenceMatcher.find_longest_match` over the ranges
`[alo, ahi)` of `a` and `[blo, bhi)` of `b`: the longest contiguous
matching block, ties broken by the smallest `i`, then the smallest `j`
(only strictly longer runs displace the best, and `i` and `j` ascend).
Returns `(i, j, size)`. -/
def findLongestMatch (a b : List Char) (alo ahi blo bhi : Nat) :
    Nat × Nat × Nat :=
  ((List.range' alo (ahi - alo)).foldl
    (fun st i => flmRow (a.getD i ' ') b blo bhi i st.2 st.1)
    ((alo, blo, 0), [])).1

/-- Total size of all matching blocks
(`difflib.SequenceMatcher.get_matching_blocks`, summed): recursively the
longest matching block plus the blocks of the two flanking subranges.
The fuel dominates the recursion depth; `seqMatchSize` supplies enough. -/
def matchingBlocksSum (a b : List Char) :
    Nat → Nat → Nat → Nat → Nat → Nat
  | 0, _, _, _, _ => 0
  | fuel + 1, alo, ahi, blo, bhi =>
    let (i, j, k) := findLongestMatch a b alo ahi blo bhi
    if k = 0 then 0
    else k + matchingBlocksSum a b fuel alo i blo j
           + matchingBlocksSum a b fuel (i + k) ahi (j + k) bhi

/-- The total number of matched characters between two strings, i.e. the
`M` in difflib's `ratio() = 2.0 * M / T`. -/
def seqMatchSize (a b : String) : Nat :=
  matchingBlocksSum a.toList b.toList (a.length + b.length + 1)
    0 a.length 0 b.length

/-- Comparison used to order difflib scoring tuples `(ratio, x)`
descending, as `heapq.nlargest` does: by the rational
`ratio = 2 M / (|x| + |word|)` (compared exactly, by cross
multiplication), ties by the string descending. -/
def scoreGt (p q : Nat × Nat × String) : Bool :=
  if p.1 * q.2.1 ≠ q.1 * p.2.1 then p.1 * q.2.1 > q.1 * p.2.1
  else decide (q.2.2 < p.2.2)

/-- Stable descending insertion for `scoreGt` (equal elements keep their
original order, as in `sorted(..., reverse=True)`). -/
def insertDesc (x : Nat × Nat × String) :
    List (Nat × Nat × String) → List (Nat × Nat × String)
  | [] => [x]
  | y :: ys => if scoreGt x y then x :: y :: ys else y :: insertDesc x ys

/-- `difflib.get_close_matches(word, possibilities)` with the default
`n = 3`, `cutoff = 0.6`: the possibilities whose ratio against `word` is
at least 0.6 (the `real_quick_ratio`/`quick_ratio` prefilters are upper
bounds of `ratio`, so they drop nothing that the final test keeps), the
best three, best first.  The 0.6 cutoff is compared exactly
(`2 M / T ≥ 3/5`), where CPython compares floats; no key pair near the
boundary behaves differently. -/
def get_close_matches (word : String) (possibilities : List String) :
    List String :=
  let scored := possibilities.filterMap (fun x =>
    let m := seqMatchSize x word
    let t := x.length + word.length
    if 10 * m ≥ 3 * t then some (m, t, x) else none)
  ((scored.foldl (fun acc p => insertDesc p acc) []).take 3).map
    (fun p => p.2.2)

/-- `yatiml.util._describe_allowed_present_keys`. -/
def describe_allowed_present_keys (got : List String)
    (all_keys : List (String × TypeDesc × Bool)) (missing : Bool) : String :=
  let extraneous := !missing
  let req_keys := (all_keys.filter (fun x => x.2.2)).map
    (fun x => "\"" ++ x.1 ++ "\"")
  let opt_keys := (all_keys.filter (fun x => !x.2.2)).map
    (fun x => "\"" ++ x.1 ++ "\"")
  let req_msg := "For reference, "
    ++ (if req_keys.length > 1 then "keys" else "key")
    ++ " " ++ cjoin "and" req_keys
    ++ (if req_keys.length > 1 then " are" else " is")
    ++ " required here"
  let class_desc := [req_msg]
  let class_desc := if opt_keys ≠ [] then
      class_desc ++ [cjoin "and" opt_keys
        ++ (if opt_keys.length > 1 then " are" else " is") ++ " optional"]
    else class_desc
  let class_desc := if extraneous then
      class_desc ++ ["no other keys are allowed"] else class_desc
  let sug_msg := cjoin "and" class_desc
  let g := got.map (fun s => "\"" ++ s ++ "\"")
  let sug_msg := sug_msg ++ ", but"
  let sug_msg := if missing
      && got.all (fun s => (all_keys.map (fun x => x.1)).contains s) then
    sug_msg ++ " only" else sug_msg
  let sug_msg := sug_msg ++ " " ++ cjoin "and" g
  sug_msg ++ (if got.length > 1 then " were given." else " was given.")

/-- `yatiml.util.diagnose_missing_key`: the message for a missing
required attribute `name`, given the keys `got` actually present and the
`class_subobjects` list of the expected class. -/
def diagnose_missing_key (name : String) (got : List String)
    (attrs : List (String × TypeDesc × Bool)) : String :=
  let a := "\"" ++ name ++ "\""
    ++ (if name.data.contains '_' then
          " or maybe \""
            ++ String.mk (name.data.map (fun c => if c == '_' then '-' else c))
            ++ "\"" else "")
  let expected_msg := "Expected a key " ++ a ++ " but it was not found."
  let expected_keys := attrs.map (fun x => x.1)
  let similar := (get_close_matches name got).filter
    (fun s => !expected_keys.contains s)
  if similar ≠ [] then
    let suggestions := cjoin "or" (similar.map (fun s => "\"" ++ s ++ "\""))
    expected_msg ++ " "
      ++ ("Maybe " ++ suggestions ++ " was intended to be " ++ a ++ "? ")
  else if attrs.length < 8 then
    expected_msg ++ " Maybe it was indented incorrectly? "
      ++ describe_allowed_present_keys got attrs true
  else
    expected_msg ++ " " ++ "Maybe it was forgotten or indented incorrectly?"

/-- Facts about one registered class, as the Python recognizer obtains
them by reflection on the class object.  `attrs` is the list produced by
`yatiml.introspection.class_subobjects`: `(name, type, required)` per
constructor argument.  `customRecognize` models a `_yatiml_recognize`
hook: `none` accepts the node, `some msg` models
`raise RecognitionError(msg)`.  Hooks are modelled as pure functions of
the node.  `savorizeFn`/`sweetenFn` model `yatiml_savorize` /
`_yatiml_sweeten` hooks as node transformers, with `hasSavorizeAttr`
modelling `hasattr(c, 'yatiml_savorize')` and `hasOwnSweeten` modelling
`'_yatiml_sweeten' in c.__dict__`. -/
structure ClassInfo where
  name : String
  bases : List String
  abstract : Bool
  isEnum : Bool
  isStringLike : Bool
  hasCustomRecognize : Bool
  customRecognize : YNode → Option String
  attrs : List (String × TypeDesc × Bool)
  hasSavorizeAttr : Bool
  savorizeFn : YNode → YNode
  hasOwnSweeten : Bool
  sweetenFn : YNode → YNode

/-- The class registry `Loader._registered_classes.values()`, in
registration order. -/
abbrev Registry := List ClassInfo

/-- Look a class up by name. -/
def lookupClass (reg : Registry) (n : String) : Option ClassInfo :=
  reg.find? (fun ci => ci.name == n)

/-- Whether a class name is registered
(`expected_type in self.__registered_classes.values()`). -/
def isRegistered (reg : Registry) (n : String) : Bool :=
  (lookupClass reg n).isSome

/-- Look a class up by its tag (`self.__registered_classes[node.tag]`;
registered tags are `'!' + class.__name__`). -/
def tagToClass (reg : Registry) (tag : String) : Option ClassInfo :=
  reg.find? (fun ci => "!" ++ ci.name == tag)

/-- `yatiml.util.is_abstract` for a registered class name. -/
def is_abstract (reg : Registry) (cname : String) : Bool :=
  match lookupClass reg cname with
  | some ci => ci.abstract
  | none => false

/-- `yatiml.util.is_string_like` on a type descriptor: `str` itself, or
a registered class flagged string-like (derived from `str`, `UserString`
or `yatiml.String`). -/
def is_string_like (reg : Registry) : TypeDesc → Bool
  | .tStr => true
  | .tClass n =>
    match lookupClass reg n with
    | some ci => ci.isStringLike
    | none => false
  | _ => false

/-- A recognition result as threaded through the embedding: the set of
recognized types, the error tree, and the node (possibly updated, since
Python mutates nodes in place). -/
abbrev RecRes := List TypeDesc × RecErr × YNode

/-- The type of the recursive `recognize` entry point as seen by the
individual recognition functions. -/
abbrev RecFn := YNode → TypeDesc → Option RecRes

/-- The type of the recursive `__recognize_user_classes` as seen by the
subclass-collection loop. -/
abbrev UCFn := YNode → String → Bool → Option RecRes

/-- `Recognizer.__recognize_scalar`: the node must be a scalar whose tag
equals `scalar_type_to_tag[expected_type]`; on success the result is the
singleton of the expected type. -/
def recognize_scalar (node : YNode) (expected : TypeDesc) : RecRes :=
  match node, scalar_type_to_tag expected with
  | .scalar tag v, some stag =>
    if tag == stag then ([expected], RecErr.ok, .scalar tag v)
    else ([], .mk ("Expected " ++ type_to_desc expected) [], .scalar tag v)
  | n, _ => ([], .mk ("Expected " ++ type_to_desc expected) [], n)

/-- The loop of `Recognizer.__recognize_union`: recognize the node
against every alternative, union the results, collect the causes of the
failed alternatives.  The node is threaded because an alternative can
update it in place. -/
def unionLoop (recog : RecFn) :
    List TypeDesc → YNode → List TypeDesc → List RecErr →
    Option (List TypeDesc × List RecErr × YNode)
  | [], node, acc, causes => some (acc, causes, node)
  | t :: ts, node, acc, causes => do
    let (r, result, node') ← recog node t
    unionLoop recog ts node' (tdUnion acc r)
      (if r.isEmpty then causes ++ [result] else causes)

/-- `Recognizer.__recognize_union`: recognize against every alternative;
if both `bool` and `bool_union_fix` were recognized, remove the fix;
then report nothing / ambiguity / the unique match. -/
def recognize_union (recog : RecFn) (node : YNode)
    (alts : List TypeDesc) : Option RecRes := do
  let (rts, causes, node') ← unionLoop recog alts node [] []
  let rts := if tdContains rts .tBool && tdContains rts .tBoolUnionFix then
      rts.filter (fun t => !tdBeq t .tBoolUnionFix)
    else rts
  if rts.isEmpty then
    some (rts, .mk ("Expected one of the following types,"
      ++ " but failed to match all of them:") causes, node')
  else if rts.length > 1 then
    some (rts, .mk ("Could not determine which of the following types"
      ++ " this is: " ++ cjoin "or" (rts.map type_to_desc)) causes, node')
  else
    some (rts, RecErr.ok, node')

/-- The loop of `Recognizer.__recognize_list`: each item must recognize
against the item type; a failing item fails the list, an ambiguous item
yields the set of `List[t]` for its candidates.  `done` holds the items
already processed (possibly updated in place). -/
def listLoop (recog : RecFn) (itemType expected : TypeDesc)
    (tag : String) :
    List YNode → List YNode → Option RecRes
  | done, [] => some ([expected], RecErr.ok, .sequence tag done)
  | done, item :: rest => do
    let (r, result, item') ← recog item itemType
    if r.isEmpty then
      some ([], .mk ("Expected " ++ type_to_desc expected) [result],
        .sequence tag (done ++ item' :: rest))
    else if r.length > 1 then
      some (r.map .tList, result, .sequence tag (done ++ item' :: rest))
    else
      listLoop recog itemType expected tag (done ++ [item']) rest

/-- `Recognizer.__recognize_list`. -/
def recognize_list (recog : RecFn) (node : YNode)
    (itemType : TypeDesc) : Option RecRes :=
  match node with
  | .sequence tag items =>
    listLoop recog itemType (.tList itemType) tag [] items
  | n => some ([], .mk "Expected a list" [], n)

/-- The loop of `Recognizer.__recognize_dict`: keys against the key type
and values against the value type, with the same propagation rules as
for lists. -/
def dictLoop (recog : RecFn) (keyType valueType expected : TypeDesc)
    (tag : String) :
    List (YNode × YNode) → List (YNode × YNode) → Option RecRes
  | done, [] => some ([expected], RecErr.ok, .mapping tag done)
  | done, (key, value) :: rest => do
    let (rk, kresult, key') ← recog key keyType
    if rk.isEmpty then
      some ([], kresult, .mapping tag (done ++ (key', value) :: rest))
    else if rk.length > 1 then
      some (rk.map (fun t => .tDict t valueType), kresult,
        .mapping tag (done ++ (key', value) :: rest))
    else do
      let (rv, vresult, value') ← recog value valueType
      if rv.isEmpty then
        some ([], vresult, .mapping tag (done ++ (key', value') :: rest))
      else if rv.length > 1 then
        some (rv.map (fun t => .tDict keyType t), vresult,
          .mapping tag (done ++ (key', value') :: rest))
      else
        dictLoop recog keyType valueType expected tag
          (done ++ [(key', value')]) rest

/-- `Recognizer.__recognize_dict`: a non-string-like key type is a
`RuntimeError` (modelled `none`); the node must be a mapping. -/
def recognize_dict (reg : Registry) (recog : RecFn) (node : YNode)
    (keyType valueType : TypeDesc) : Option RecRes :=
  if !is_string_like reg keyType then none
  else match node with
  | .mapping tag entries =>
    dictLoop recog keyType valueType (.tDict keyType valueType) tag
      [] entries
  | n => some ([], .mk "Expected a dict/mapping here" [], n)

/-- Whether a mapping key node equals an attribute name
(`key_node.value == attribute`; a non-scalar key's value is a list and
never equals a string). -/
def keyMatches (k : YNode) (attr : String) : Bool :=
  match k with
  | .scalar _ v => v == attr
  | _ => false

/-- `yatiml.helpers.Node.has_attribute`.  Only meaningful for mapping
nodes (Python would crash iterating a scalar's `.value`); every caller
guards with `is_mapping`. -/
def has_attribute (node : YNode) (attr : String) : Bool :=
  match node with
  | .mapping _ entries => entries.any (fun kv => keyMatches kv.1 attr)
  | _ => false

/-- `yatiml.helpers.Node.get_attribute`: the value node of the unique
entry with the given key; raises `SeasoningError` (modelled as
`Except.error` with the exception's message) when the key is absent or
occurs more than once. -/
def get_attribute (node : YNode) (attr : String) : Except String YNode :=
  match node with
  | .mapping _ entries =>
    match entries.filter (fun kv => keyMatches kv.1 attr) with
    | [kv] => .ok kv.2
    | _ => .error ("Key not found, or found multiple times: " ++ attr)
  | _ => .error "get_attribute used on a non-mapping node"

/-- Write an updated value node back into a mapping's entries.  This
models Python's in-place mutation of the sub-node object: the recognizer
holds the same object that the mapping's entry list references, so a
mutation is visible in the mapping.  On the paths where it is used the
key matches exactly one entry. -/
def writeBackAttr (entries : List (YNode × YNode)) (attr : String)
    (v : YNode) : List (YNode × YNode) :=
  entries.map (fun kv => if keyMatches kv.1 attr then (kv.1, v) else kv)

/-- The keys of a mapping's entries, as the list comprehension
`[kn.value for kn, _ in node.value]` produces them for string keys.
Non-scalar keys are dropped: their Python `.value` is a list, which can
never come out of `get_close_matches` against a string name. -/
def entryKeys (entries : List (YNode × YNode)) : List String :=
  entries.filterMap (fun kv =>
    match kv.1 with
    | .scalar _ v => some v
    | _ => none)

/-- `attr_name.replace('_', '-')`, implemented over the character list
so that proofs can evaluate it (the pattern is a single character, so
substring replacement is a character map). -/
def dashedName (s : String) : String :=
  ⟨s.data.map (fun c => if c == '_' then '-' else c)⟩

/-- The attribute loop of `Recognizer.__recognize_user_class`
(auto-recognition from the constructor signature): for each attribute,
try the verbatim name first and the dash-for-underscore spelling second;
a present attribute must recognize against its declared type, a missing
required attribute fails with the `diagnose_missing_key` message. -/
def attrLoop (recog : RecFn) (ci : ClassInfo) (mtag : String) :
    List (String × TypeDesc × Bool) → List (YNode × YNode) →
    Option RecRes
  | [], entries =>
    some ([.tClass ci.name], RecErr.ok, .mapping mtag entries)
  | (attrName, attrType, required) :: rest, entries =>
    let node := YNode.mapping mtag entries
    let foundName : Option String :=
      if has_attribute node attrName then some attrName
      else if has_attribute node (dashedName attrName) then
        some (dashedName attrName)
      else none
    match foundName with
    | some name => do
      let subnode ← (get_attribute node name).toOption
      let (r, result, sub') ← recog subnode attrType
      if r.isEmpty then
        some ([], .mk ("Error in attribute \"" ++ name ++ "\"") [result],
          .mapping mtag (writeBackAttr entries name sub'))
      else
        attrLoop recog ci mtag rest (writeBackAttr entries name sub')
    | none =>
      if required then
        some ([], .mk (diagnose_missing_key attrName (entryKeys entries)
          ci.attrs) [], node)
      else
        attrLoop recog ci mtag rest entries

/-- `Recognizer.__recognize_user_class`: leaf-level recognition of one
concrete class, without subclass recursion.  A custom hook wins; an enum
class needs a scalar tagged `str` or `bool` and rewrites the tag to
`str` in place ("don't read this as a bool but as a string"); a
string-like class needs a scalar tagged exactly `str`; any other class
auto-recognizes from its constructor signature. -/
def recognize_user_class (recog : RecFn) (reg : Registry) (node : YNode)
    (cname : String) : Option RecRes := do
  let ci ← lookupClass reg cname
  if ci.hasCustomRecognize then
    match ci.customRecognize node with
    | none => some ([.tClass ci.name], RecErr.ok, node)
    | some m => some ([], .mk m [], node)
  else if ci.isEnum then
    match node with
    | .scalar tag v =>
      if tag == "tag:yaml.org,2002:str" || tag == "tag:yaml.org,2002:bool"
      then
        some ([.tClass ci.name], RecErr.ok,
          .scalar "tag:yaml.org,2002:str" v)
      else
        some ([], .mk ("Expected a string matching "
          ++ type_to_desc (.tClass ci.name)) [], .scalar tag v)
    | n =>
      some ([], .mk ("Expected a string matching "
        ++ type_to_desc (.tClass ci.name)) [], n)
  else if ci.isStringLike then
    match node with
    | .scalar tag v =>
      if tag == "tag:yaml.org,2002:str" then
        some ([.tClass ci.name], RecErr.ok, .scalar tag v)
      else
        some ([], .mk ("Expected a string matching "
          ++ type_to_desc (.tClass ci.name)) [], .scalar tag v)
    | n =>
      some ([], .mk ("Expected a string matching "
        ++ type_to_desc (.tClass ci.name)) [], n)
  else
    match node with
    | .mapping mtag entries => attrLoop recog ci mtag ci.attrs entries
    | n =>
      let req_attrs := (ci.attrs.filter (fun x => x.2.2)).map
        (fun x => "\"" ++ x.1 ++ "\"")
      some ([], .mk ("Expected a dict/mapping here with keys "
        ++ cjoin "and" req_attrs) [], n)

/-- The subclass-collection loop of
`Recognizer.__recognize_user_classes`: every registered class having the
expected class among its bases is recognized recursively; the results
are unioned and the causes of failed subclasses collected. -/
def collectLoop (recUC : UCFn) (scan : List ClassInfo)
    (expected : String) (node : YNode) (acc : List TypeDesc)
    (causes : List RecErr) :
    Option (List TypeDesc × List RecErr × YNode) :=
  match scan with
  | [] => some (acc, causes, node)
  | ci :: rest =>
    if ci.bases.contains expected then do
      let (r, result, node') ← recUC node ci.name false
      collectLoop recUC rest expected node' (tdUnion acc r)
        (if r.isEmpty then causes ++ [result] else causes)
    else collectLoop recUC rest expected node acc causes

/-- The fall-through of `Recognizer.__recognize_user_classes` after
subclass collection: when no subclass matched and the class is not
abstract, evaluate the class itself at the leaf level. -/
def leafStep (recog : RecFn) (reg : Registry) (node : YNode)
    (cname : String) (subs : List TypeDesc) (causes : List RecErr) :
    Option (List TypeDesc × List RecErr × YNode) :=
  if subs.isEmpty then
    if !is_abstract reg cname then do
      let (r, result, node') ← recognize_user_class recog reg node cname
      some (r, if r.isEmpty then causes ++ [result] else causes, node')
    else some (subs, causes, node)
  else some (subs, causes, node)

/-- `node.tag.startswith('tag:yaml.org,2002')`, implemented over the
character lists so that proofs can evaluate it. -/
def strStartsWith (s pre : String) : Bool :=
  pre.data.isPrefixOf s.data

/-- The tail of `Recognizer.__recognize_user_classes` (its lines
347-388): empty candidate set fails; more than one candidate is resolved
by an explicit class tag naming a candidate, otherwise reported
ambiguous; exactly one candidate is checked against any non-standard
tag, which must name that candidate's class. -/
def resolveCandidates (reg : Registry) (node : YNode) (cname : String)
    (cands : List TypeDesc) (causes : List RecErr) :
    List TypeDesc × RecErr :=
  if cands.isEmpty then
    ([], .mk ("Failed to recognize " ++ type_to_desc (.tClass cname))
      causes)
  else if cands.length > 1 then
    match tagToClass reg node.tag with
    | some ci =>
      if tdContains cands (.tClass ci.name) then
        ([.tClass ci.name], RecErr.ok)
      else
        (cands, .mk ("Could not determine which of the following types"
          ++ " this is: " ++ cjoin "or" (cands.map type_to_desc)) causes)
    | none =>
      (cands, .mk ("Could not determine which of the following types"
        ++ " this is: " ++ cjoin "or" (cands.map type_to_desc)) causes)
  else
    if !(strStartsWith node.tag "tag:yaml.org,2002") then
      match tagToClass reg node.tag with
      | some tagged =>
        if !tdContains cands (.tClass tagged.name) then
          ([], .mk ("Expected a " ++ cname ++ " and found it, but"
            ++ " there's a tag here claiming this is a(n) "
            ++ tagged.name ++ ". That makes no sense.") [])
        else (cands, RecErr.ok)
      | none =>
        ([], .mk ("Expected a " ++ cname ++ " and found it, but"
          ++ " there's a tag here claiming this is a(n) "
          ++ node.tag.drop 1 ++ ", which type I don't know.") [])
    else (cands, RecErr.ok)

/-- `Recognizer.__recognize_user_classes`: subclass collection, the
fall-through to the class itself, then candidate resolution.  The `top`
flag only affects the source-position line of the failure message in
Python, which the embedding does not carry. -/
def recognize_user_classes (recUC : UCFn) (recog : RecFn)
    (reg : Registry) (node : YNode) (cname : String) (top : Bool) :
    Option RecRes := do
  let (subs, causes, n1) ← collectLoop recUC reg cname node [] []
  let (cands, causes2, n2) ← leafStep recog reg n1 cname subs causes
  let (s, err) := resolveCandidates reg n2 cname cands causes2
  some (s, err, n2)

/-- The argument of one step of the recognizer's recursion: either a
`recognize(node, expected_type)` call or a
`__recognize_user_classes(node, class, top)` call. -/
inductive RecInput where
  | ty (node : YNode) (expected : TypeDesc)
  | uc (node : YNode) (cname : String) (top : Bool)

/-- The fuel-indexed recursion underlying `Recognizer.recognize` and
`Recognizer.__recognize_user_classes`.  The fuel is an artifact of the
embedding: exhaustion models non-termination (only possible for class
registries Python could not build), and every theorem either assumes a
`some` result or supplies ample fuel.  Dispatch follows
`Recognizer.recognize`: built-in scalar types, then unions, sequences,
mappings, registered classes and `Any`; an unregistered class is the
`RecognitionError` raise at its end (modelled `none`).  The additional
types (`pathlib.Path`) are not modelled. -/
def recFuel (reg : Registry) : Nat → RecInput → Option RecRes
  | 0, _ => none
  | fuel + 1, .uc node cname top =>
    recognize_user_classes (fun n c t => recFuel reg fuel (.uc n c t))
      (fun n t => recFuel reg fuel (.ty n t)) reg node cname top
  | fuel + 1, .ty node expected =>
    if isScalarType expected then some (recognize_scalar node expected)
    else match expected with
    | .tUnion alts =>
      recognize_union (fun n t => recFuel reg fuel (.ty n t)) node alts
    | .tList item =>
      recognize_list (fun n t => recFuel reg fuel (.ty n t)) node item
    | .tDict k v =>
      recognize_dict reg (fun n t => recFuel reg fuel (.ty n t)) node k v
    | .tClass c =>
      if isRegistered reg c then recFuel reg fuel (.uc node c true)
      else none
    | .tAny => some ([.tAny], RecErr.ok, node)
    | _ => none

/-- `Recognizer.recognize`. -/
def recognize (reg : Registry) (fuel : Nat) (node : YNode)
    (expected : TypeDesc) : Option RecRes :=
  recFuel reg fuel (.ty node expected)

/-- `Recognizer.__recognize_user_classes` at a given fuel. -/
def recognizeUC (reg : Registry) (fuel : Nat) (node : YNode)
    (cname : String) (top : Bool) : Option RecRes :=
  recFuel reg fuel (.uc node cname top)

/-- The subclass-collection pass at a given fuel, for stating theorems
about `recognize_user_classes` (whose unfolding at fuel `f + 1` begins
with exactly this call at fuel `f`). -/
def collectSubclasses (reg : Registry) (fuel : Nat) (node : YNode)
    (cname : String) : Option (List TypeDesc × List RecErr × YNode) :=
  collectLoop (fun n c t => recFuel reg fuel (.uc n c t)) reg cname
    node [] []

/-- A constructed Python value, as `Constructor.__call__` sees them in
its `mapping` after the yaml library has constructed the subobjects and
`__to_plain_containers` ran: scalars, lists and (ordered) dicts.
Floating-point attribute values and instances of user classes are
outside the modelled value universe; none of the verified claims
involves them. -/
inductive CVal where
  | vInt (n : Int)
  | vStr (s : String)
  | vBool (b : Bool)
  | vNull
  | vList (items : List CVal)
  | vDict (entries : List (String × CVal))
deriving Repr

/-- The reflection data of a class `__init__`, as
`inspect.getfullargspec` returns it: the argument names (starting with
`self`), the annotations, and how many trailing arguments have
defaults. -/
structure CtorSpec where
  className : String
  args : List String
  annotations : List (String × TypeDesc)
  numDefaults : Nat

/-- `yatiml.introspection.class_subobjects`: the `(name, type,
required)` triples for the constructor arguments, skipping `self` and
`_yatiml_extra` (note: with the underscore; `constructors.py` names the
overflow slot `yatiml_extra`, without it). -/
def class_subobjects (spec : CtorSpec) : List (String × TypeDesc × Bool) :=
  let first_optional := spec.args.length - spec.numDefaults
  spec.args.enum.filterMap (fun p =>
    if p.2 == "self" || p.2 == "_yatiml_extra" then none
    else some (p.2,
      ((spec.annotations.find? (fun q => q.1 == p.2)).map
        (fun q => q.2)).getD .tAny,
      decide (p.1 < first_optional)))

/-- `isinstance` on the modelled value universe (the base case of
`Constructor.__type_matches`).  Python's `bool` is a subclass of `int`,
so a `bool` value is an instance of `int`. -/
def cval_isinstance (v : CVal) : TypeDesc → Bool
  | .tInt =>
    match v with
    | .vInt _ => true
    | .vBool _ => true
    | _ => false
  | .tStr =>
    match v with
    | .vStr _ => true
    | _ => false
  | .tBool =>
    match v with
    | .vBool _ => true
    | _ => false
  | .tNull =>
    match v with
    | .vNull => true
    | _ => false
  | _ => false

/-- `isinstance(key, Tk)` for a dict key, which in the modelled value
universe is always a plain string. -/
def keyIsinstance (t : TypeDesc) : Bool :=
  match t with
  | .tStr => true
  | _ => false

mutual

/-- A size measure on modelled values, used to bound the recursion
depth of `Constructor.__type_matches`. -/
def cvSize : CVal → Nat
  | .vList items => cvSizeList items + 1
  | .vDict es => cvSizePairs es + 1
  | _ => 1

/-- `cvSize` summed over a list, plus one per element. -/
def cvSizeList : List CVal → Nat
  | [] => 0
  | v :: vs => cvSize v + cvSizeList vs + 1

/-- `cvSize` summed over the values of an entry list. -/
def cvSizePairs : List (String × CVal) → Nat
  | [] => 0
  | kv :: rest => cvSize kv.2 + cvSizePairs rest + 1

end

mutual

/-- A size measure on type descriptors, used to bound the recursion
depth of `Constructor.__type_matches`. -/
def tdSize : TypeDesc → Nat
  | .tUnion ts => tdSizeList ts + 1
  | .tList t => tdSize t + 1
  | .tDict tk tv => tdSize tk + tdSize tv + 1
  | _ => 1

/-- `tdSize` summed over a list, plus one per element. -/
def tdSizeList : List TypeDesc → Nat
  | [] => 0
  | t :: ts => tdSize t + tdSizeList ts + 1

end

/-- The argument of one step of `Constructor.__type_matches`: the check
itself, the loop over union alternatives, the loop over list items, or
the loop over dict entries. -/
inductive TMArg where
  | one (v : CVal) (t : TypeDesc)
  | anyOf (v : CVal) (ts : List TypeDesc)
  | allOf (vs : List CVal) (t : TypeDesc)
  | pairs (es : List (String × CVal)) (tk tv : TypeDesc)

/-- The fuel-indexed recursion of `Constructor.__type_matches`: union
alternatives (any match), generic lists (all items match), generic
dicts (keys are instances of the key type, values match the value
type), `bool_union_fix`, and the `isinstance` base case.  Every
recursive call strictly decreases the summed `cvSize`/`tdSize` of the
argument, so fuel one above that sum never runs out. -/
def tmFuel : Nat → TMArg → Bool
  | 0, _ => false
  | fuel + 1, .one v t =>
    match t with
    | .tUnion ts => tmFuel fuel (.anyOf v ts)
    | .tList t' =>
      match v with
      | .vList items => tmFuel fuel (.allOf items t')
      | _ => false
    | .tDict tk tv =>
      match v with
      | .vDict es => tmFuel fuel (.pairs es tk tv)
      | _ => false
    | .tBoolUnionFix =>
      match v with
      | .vBool _ => true
      | _ => false
    | t' => cval_isinstance v t'
  | fuel + 1, .anyOf v ts =>
    match ts with
    | [] => false
    | t :: rest => tmFuel fuel (.one v t) || tmFuel fuel (.anyOf v rest)
  | fuel + 1, .allOf vs t =>
    match vs with
    | [] => true
    | v :: rest => tmFuel fuel (.one v t) && tmFuel fuel (.allOf rest t)
  | fuel + 1, .pairs es tk tv =>
    match es with
    | [] => true
    | kv :: rest =>
      keyIsinstance tk && tmFuel fuel (.one kv.2 tv)
        && tmFuel fuel (.pairs rest tk tv)

/-- `Constructor.__type_matches`: like `isinstance`, but handling
`Union`, `List`, `Dict` and `bool_union_fix`. -/
def type_matches (v : CVal) (t : TypeDesc) : Bool :=
  tmFuel (cvSize v + tdSize t + 1) (.one v t)

/-- Keys of a constructed mapping. -/
def mapKeys (mapping : List (String × CVal)) : List String :=
  mapping.map (fun kv => kv.1)

/-- Lookup in a constructed mapping. -/
def lookupV (mapping : List (String × CVal)) (k : String) : Option CVal :=
  (mapping.find? (fun p => p.1 == k)).map (fun p => p.2)

/-- A rendering of `type(value)` for the type-error message of
`__check_no_missing_attributes` (approximates Python's
`<class '...'>` spelling). -/
def cvalTypeName : CVal → String
  | .vInt _ => "<class 'int'>"
  | .vStr _ => "<class 'str'>"
  | .vBool _ => "<class 'bool'>"
  | .vNull => "<class 'NoneType'>"
  | .vList _ => "<class 'list'>"
  | .vDict _ => "<class 'collections.OrderedDict'>"

/-- A rendering of a type annotation for error messages (approximates
Python's `repr` of the type object). -/
def tdRepr : TypeDesc → String
  | .tInt => "<class 'int'>"
  | .tStr => "<class 'str'>"
  | .tBool => "<class 'bool'>"
  | .tFloat => "<class 'float'>"
  | .tNull => "<class 'NoneType'>"
  | .tDate => "<class 'datetime.date'>"
  | .tBoolUnionFix => "<class 'yatiml.util.bool_union_fix'>"
  | .tAny => "typing.Any"
  | .tUnion _ => "typing.Union[...]"
  | .tList _ => "typing.List[...]"
  | .tDict _ _ => "typing.Dict[...]"
  | .tClass n => "<class '" ++ n ++ "'>"

/-- The loop of `Constructor.__check_no_missing_attributes` over
`class_subobjects`: a required attribute missing from the mapping, or a
present attribute of the wrong type, raises `RecognitionError` (the
first failure wins). -/
def checkMissingLoop (className : String)
    (mapping : List (String × CVal)) :
    List (String × TypeDesc × Bool) → Option String
  | [] => none
  | (name, type_, required) :: rest =>
    if required && !(mapKeys mapping).contains name then
      some ("Missing attribute " ++ name
        ++ " needed for constructing a " ++ className)
    else
      match lookupV mapping name with
      | some v =>
        if !type_matches v type_ then
          some ("Attribute " ++ name ++ " has incorrect type "
            ++ cvalTypeName v ++ ", expecting a " ++ tdRepr type_)
        else checkMissingLoop className mapping rest
      | none => checkMissingLoop className mapping rest

/-- `Constructor.__check_no_missing_attributes`. -/
def check_no_missing_attributes (spec : CtorSpec)
    (mapping : List (String × CVal)) : Option String :=
  checkMissingLoop spec.className mapping (class_subobjects spec)

/-- `Constructor.__type_check_attributes`: every key of the mapping must
be a constructor argument (unless the class has the `yatiml_extra`
overflow slot) of matching annotated type.  Mapping keys in the modelled
value universe are always strings, so the non-string-key branch cannot
trigger. -/
def type_check_attributes (spec : CtorSpec) :
    List (String × CVal) → Option String
  | [] => none
  | (key, value) :: rest =>
    if !spec.args.contains key && !spec.args.contains "yatiml_extra" then
      some ("Found additional attributes and " ++ spec.className
        ++ " does not support those")
    else if spec.args.contains key
        && !type_matches value
          (((spec.annotations.find? (fun q => q.1 == key)).map
            (fun q => q.2)).getD .tAny) then
      some ("Expected attribute " ++ key ++ " to be of type "
        ++ tdRepr (((spec.annotations.find? (fun q => q.1 == key)).map
            (fun q => q.2)).getD .tAny)
        ++ " but it is a(n) " ++ cvalTypeName value)
    else type_check_attributes spec rest

/-- `Constructor.__split_off_extra_attributes`: the key-value pairs
whose key is a known constructor argument stay (in order), everything
else (and any literal `yatiml_extra` key) moves, in original order, into
a dict bound to the key `yatiml_extra`, appended at the end. -/
def split_off_extra_attributes (mapping : List (String × CVal))
    (known_attrs : List String) : List (String × CVal) :=
  let main := mapping.filter (fun kv =>
    known_attrs.contains kv.1 && kv.1 != "yatiml_extra")
  let extra := mapping.filter (fun kv =>
    !known_attrs.contains kv.1 || kv.1 == "yatiml_extra")
  main ++ [("yatiml_extra", .vDict extra)]

mutual

/-- `Constructor.__strip_tags`: resets the tag of every mapping in the
tree to the plain `map` tag and recurses through sequences and mappings.
Scalar tags (and the sequence's own tag) are left as they are. -/
def strip_tags : YNode → YNode
  | .scalar t v => .scalar t v
  | .sequence t items => .sequence t (stripTagsList items)
  | .mapping _ entries =>
    .mapping "tag:yaml.org,2002:map" (stripTagsPairs entries)

/-- `strip_tags` over the items of a sequence. -/
def stripTagsList : List YNode → List YNode
  | [] => []
  | n :: ns => strip_tags n :: stripTagsList ns

/-- `strip_tags` over the entries of a mapping (both keys and values
are stripped). -/
def stripTagsPairs : List (YNode × YNode) → List (YNode × YNode)
  | [] => []
  | kv :: rest => (strip_tags kv.1, strip_tags kv.2) :: stripTagsPairs rest

end

/-- The entry loop of `Constructor.__strip_extra_attributes`: every key
must be a string-tagged scalar; the value under any key that is not a
known constructor argument is tag-stripped. -/
def stripExtraLoop (known : List String) :
    List (YNode × YNode) → Except String (List (YNode × YNode))
  | [] => .ok []
  | (k, v) :: rest =>
    match k with
    | .scalar ktag kval =>
      if ktag != "tag:yaml.org,2002:str" then
        .error ("Mapping keys that are not of type string are not"
          ++ " supported by YAtiML.")
      else do
        let rest' ← stripExtraLoop known rest
        if !known.contains kval then
          .ok ((k, strip_tags v) :: rest')
        else
          .ok ((k, v) :: rest')
    | _ =>
      .error ("Mapping keys that are not of type string are not"
        ++ " supported by YAtiML.")

/-- `Constructor.__strip_extra_attributes`: `known_attrs` is
`argspec.args`; it must contain `self` (else `RuntimeError`), and
`self` and the `yatiml_extra` overflow slot are not treated as mapping
keys. -/
def strip_extra_attributes (node : YNode) (known_attrs : List String) :
    Except String YNode :=
  if !known_attrs.contains "self" then
    .error ("The __init__ method does not have a \"self\" attribute!"
      ++ " Please add one, this is not a valid constructor.")
  else
    let known := (known_attrs.erase "self").erase "yatiml_extra"
    match node with
    | .mapping mtag entries => do
      let entries' ← stripExtraLoop known entries
      .ok (.mapping mtag entries')
    | _ => .error "strip_extra_attributes used on a non-mapping node"

/-- The checking phase of `Constructor.__call__`, up to the point where
`__init__` would be invoked: the node must be a mapping, extra
attributes are tag-stripped, required attributes are checked present and
well-typed, extraneous attributes are rejected, and for a class with the
overflow slot the mapping is reorganised by
`__split_off_extra_attributes`.  The `mapping` argument is the result
of `loader.construct_mapping(node, deep=True)` on the (stripped) node —
the yaml library's object construction, which is external to this
repository — and `__to_plain_containers` (a pure representation change
that is the identity on the modelled value universe).  On success the
returned mapping is exactly the keyword-argument dict passed to
`__init__`. -/
def constructor_call_checks (spec : CtorSpec) (node : YNode)
    (mapping : List (String × CVal)) :
    Except String (List (String × CVal)) := do
  match node with
  | .mapping _ _ => pure ()
  | _ => throw ("Expected a MappingNode. There is probably something"
      ++ " wrong with your yatiml_savorize() function.")
  let _ ← strip_extra_attributes node spec.args
  match check_no_missing_attributes spec mapping with
  | some m => throw m
  | none => pure ()
  match type_check_attributes spec mapping with
  | some m => throw m
  | none => pure ()
  if spec.args.contains "yatiml_extra" then
    pure (split_off_extra_attributes mapping spec.args)
  else
    pure mapping

/-- The base-class loop shared by `Loader.__savorize` and
`Representer.__sweeten`: fold over the declared bases in order,
recursing into each registered one, threading the node and appending the
recorded hook invocations. -/
def hookBasesFold (hk : String → YNode → Option (YNode × List String))
    (reg : Registry) :
    List String → YNode → List String → Option (YNode × List String)
  | [], node, tr => some (node, tr)
  | b :: rest, node, tr =>
    if isRegistered reg b then do
      let (n', tr') ← hk b node
      hookBasesFold hk reg rest n' (tr ++ tr')
    else hookBasesFold hk reg rest node tr

/-- `Loader.__savorize`: recursively savorize the registered base
classes first (in `__bases__` order), then apply the class's own
`yatiml_savorize` hook if `hasattr` finds one.  Returns the transformed
node together with the trace of classes on which a hook call was made,
in invocation order (the trace is instrumentation of the embedding; the
Python code only performs the calls). -/
def savorize (reg : Registry) : Nat → String → YNode →
    Option (YNode × List String)
  | 0, _, _ => none
  | fuel + 1, cname, node => do
    let bs := ((lookupClass reg cname).map (fun ci => ci.bases)).getD []
    let (n1, tr1) ← hookBasesFold (savorize reg fuel) reg bs node []
    match lookupClass reg cname with
    | some ci =>
      if ci.hasSavorizeAttr then some (ci.savorizeFn n1, tr1 ++ [cname])
      else some (n1, tr1)
    | none => some (n1, tr1)

/-- `Representer.__sweeten`: recursively sweeten the registered base
classes first (for Python, those with a registered representer), then
apply the class's own `_yatiml_sweeten` hook if the class dict holds
one.  Returns the transformed node and the hook invocation trace. -/
def sweeten (reg : Registry) : Nat → String → YNode →
    Option (YNode × List String)
  | 0, _, _ => none
  | fuel + 1, cname, node => do
    let bs := ((lookupClass reg cname).map (fun ci => ci.bases)).getD []
    let (n1, tr1) ← hookBasesFold (sweeten reg fuel) reg bs node []
    match lookupClass reg cname with
    | some ci =>
      if ci.hasOwnSweeten then some (ci.sweetenFn n1, tr1 ++ [cname])
      else some (n1, tr1)
    | none => some (n1, tr1)

/-- A nonempty string stays nonempty under append. -/
theorem append_ne_empty_of_left (s t : String) (h : s.length ≠ 0) :
    s ++ t ≠ "" := by
  intro hc
  have hl := congrArg String.length hc
  rw [String.length_append] at hl
  have h0 : String.length "" = 0 := rfl
  omega

/-- The absence of a custom `_yatiml_recognize` hook, as model data (the
function field is irrelevant when `hasCustomRecognize` is false). -/
def noHook : YNode → Option String := fun _ => none

/-- A registered class with no hooks, recognized from its constructor
signature. -/
def plainClass (name : String) (bases : List String)
    (attrs : List (String × TypeDesc × Bool)) : ClassInfo :=
  ⟨name, bases, false, false, false, false, noHook, attrs, false, id,
    false, id⟩

/-- A registered enum class. -/
def enumClass (name : String) (bases : List String) : ClassInfo :=
  ⟨name, bases, false, true, false, false, noHook, [], false, id,
    false, id⟩

/-- A registered string-like class. -/
def strLikeClass (name : String) (bases : List String) : ClassInfo :=
  ⟨name, bases, false, false, true, false, noHook, [], false, id,
    false, id⟩

/-- A registered class with a custom `_yatiml_recognize` hook. -/
def hookClass (name : String) (bases : List String)
    (hook : YNode → Option String) : ClassInfo :=
  ⟨name, bases, false, false, false, true, hook, [], false, id,
    false, id⟩

/-- A registered abstract class with no hooks. -/
def abstractClass (name : String) (bases : List String) : ClassInfo :=
  ⟨name, bases, true, false, false, false, noHook, [], false, id,
    false, id⟩

/-- The standard YAML scalar tags used by concrete instances. -/
def strTag : String := "tag:yaml.org,2002:str"

/-- The standard int tag. -/
def intTag : String := "tag:yaml.org,2002:int"

/-- The standard bool tag. -/
def boolTag : String := "tag:yaml.org,2002:bool"

/-- The standard float tag. -/
def floatTag : String := "tag:yaml.org,2002:float"

/-- The standard map tag. -/
def mapTag : String := "tag:yaml.org,2002:map"

/-- C3: for every built-in scalar expected type T (str, int, float,
bool, null, date — every type with a `scalar_type_to_tag` entry other
than the `bool_union_fix` marker), `recognize(node, T)` returns the
singleton containing T exactly when the node is a scalar whose tag is
the YAML tag of T; on any mismatch it returns the empty set with a
non-empty error message.  In particular no coercion between int and
float ever happens. -/
theorem c3_scalar_exactness (reg : Registry) (fuel : Nat) (node : YNode)
    (t : TypeDesc) (stag : String) (hfix : t ≠ .tBoolUnionFix)
    (hstag : scalar_type_to_tag t = some stag) :
    recognize reg (fuel + 1) node t = some (recognize_scalar node t) ∧
    ((recognize_scalar node t).1 = [t] ↔
      ∃ v, node = .scalar stag v) ∧
    ((¬ ∃ v, node = .scalar stag v) →
      (recognize_scalar node t).1 = [] ∧
      (recognize_scalar node t).2.1.msg ≠ "") := by
  refine ⟨?_, ?_, ?_⟩
  · have hsc : isScalarType t = true := by
      unfold isScalarType
      rw [hstag]
      rfl
    unfold recognize recFuel
    rw [hsc]
    simp
  · cases node with
    | scalar tag v =>
      unfold recognize_scalar
      rw [hstag]
      by_cases h : tag = stag
      · subst h
        simp
      · have hb : (tag == stag) = false := by
          simp [h]
        simp [hb, h]
    | sequence tag items =>
      unfold recognize_scalar
      rw [hstag]
      simp
    | mapping tag entries =>
      unfold recognize_scalar
      rw [hstag]
      simp
  · intro hne
    cases node with
    | scalar tag v =>
      have h : tag ≠ stag := by
        intro hc
        exact hne ⟨v, by rw [hc]⟩
      have hb : (tag == stag) = false := by
        simp [h]
      have hr : recognize_scalar (.scalar tag v) t =
          ([], .mk ("Expected " ++ type_to_desc t) [], .scalar tag v) := by
        unfold recognize_scalar
        rw [hstag]
        simp [hb]
      rw [hr]
      exact ⟨rfl, append_ne_empty_of_left "Expected " (type_to_desc t)
        (by decide)⟩
    | sequence tag items =>
      unfold recognize_scalar
      rw [hstag]
      exact ⟨rfl, append_ne_empty_of_left "Expected " (type_to_desc t)
        (by decide)⟩
    | mapping tag entries =>
      unfold recognize_scalar
      rw [hstag]
      exact ⟨rfl, append_ne_empty_of_left "Expected " (type_to_desc t)
        (by decide)⟩

/-- Witness for C3 at a concrete input: the int-tagged scalar `42` is
never recognized against float — the result set is empty with a
non-empty message — while it is recognized against int. -/
theorem c3_scalar_exactness_witness :
    (recognize [] 1 (.scalar intTag "42") .tFloat =
      some (recognize_scalar (.scalar intTag "42") .tFloat)) ∧
    (recognize_scalar (.scalar intTag "42") .tFloat).1 = [] ∧
    (recognize_scalar (.scalar intTag "42") .tFloat).2.1.msg ≠ "" ∧
    (recognize_scalar (.scalar intTag "42") .tInt).1 = [.tInt] := by
  have h := c3_scalar_exactness [] 0 (.scalar intTag "42") .tFloat
    floatTag (by intro h; cases h) rfl
  have hne : ¬ ∃ v, YNode.scalar intTag "42" = .scalar floatTag v := by
    rintro ⟨v, hv⟩
    injection hv with h1 h2
    exact absurd h1 (by decide)
  refine ⟨h.1, ?_, ?_, ?_⟩
  · exact (h.2.2 hne).1
  · exact (h.2.2 hne).2
  · have h2 := c3_scalar_exactness [] 0 (.scalar intTag "42") .tInt
      intTag (by intro h; cases h) rfl
    exact h2.2.1.mpr ⟨"42", rfl⟩

/-- The set a union recognition returns never contains both `bool` and
the `bool_union_fix` marker: when both were recognized, the marker is
removed before the result is classified. -/
theorem recognize_union_not_both (recog : RecFn) (node : YNode)
    (alts : List TypeDesc) (s : List TypeDesc) (e : RecErr) (n' : YNode)
    (h : recognize_union recog node alts = some (s, e, n')) :
    ¬(TypeDesc.tBool ∈ s ∧ TypeDesc.tBoolUnionFix ∈ s) := by
  unfold recognize_union at h
  cases hu : unionLoop recog alts node [] [] with
  | none =>
    rw [hu] at h
    simp at h
  | some trip =>
    obtain ⟨rts, causes, node₁⟩ := trip
    rw [hu] at h
    simp only [Option.bind_eq_bind, Option.some_bind] at h
    by_cases hc :
        (tdContains rts .tBool && tdContains rts .tBoolUnionFix) = true
    · rw [if_pos hc] at h
      have hs : s = rts.filter (fun t => !tdBeq t .tBoolUnionFix) := by
        repeat' split at h
        all_goals
          simp only [Option.some.injEq, Prod.mk.injEq] at h
          exact h.1.symm
      rintro ⟨-, hfix⟩
      rw [hs] at hfix
      have := List.of_mem_filter hfix
      rw [tdBeq_refl .tBoolUnionFix] at this
      exact absurd this (by decide)
    · rw [if_neg hc] at h
      have hs : s = rts := by
        repeat' split at h
        all_goals
          simp only [Option.some.injEq, Prod.mk.injEq] at h
          exact h.1.symm
      rintro ⟨hbool, hfix⟩
      rw [hs] at hbool hfix
      exact hc (by
        rw [tdContains_of_mem hbool, tdContains_of_mem hfix]
        rfl)

/-- C2: recognizing against a union removes the `bool_union_fix` marker
whenever plain `bool` was also recognized, so no result set ever holds
both; concretely, against `Union[int, bool_union_fix, bool]` a
bool-tagged scalar yields exactly the singleton bool with no error, and
an int-tagged scalar yields exactly the singleton int. -/
theorem c2_union_bool_fix_collapse (reg : Registry) (fuel : Nat)
    (node : YNode) (alts : List TypeDesc) (s : List TypeDesc) (e : RecErr)
    (n' : YNode)
    (h : recognize reg fuel node (.tUnion alts) = some (s, e, n')) :
    ¬(TypeDesc.tBool ∈ s ∧ TypeDesc.tBoolUnionFix ∈ s) ∧
    recognize [] 2 (.scalar boolTag "true")
        (.tUnion [.tInt, .tBoolUnionFix, .tBool]) =
      some ([.tBool], RecErr.ok, .scalar boolTag "true") ∧
    recognize [] 2 (.scalar intTag "42")
        (.tUnion [.tInt, .tBoolUnionFix, .tBool]) =
      some ([.tInt], RecErr.ok, .scalar intTag "42") := by
  refine ⟨?_, rfl, rfl⟩
  cases fuel with
  | zero => exact absurd h (by simp [recognize, recFuel])
  | succ f =>
    have h' : recognize_union (fun n t => recFuel reg f (.ty n t))
        node alts = some (s, e, n') := by
      rw [recognize, recFuel] at h
      exact h
    exact recognize_union_not_both _ node alts s e n' h'

/-- Witness for C2 at the concrete bool input of the claim. -/
theorem c2_union_bool_fix_collapse_witness :
    ¬(TypeDesc.tBool ∈ [TypeDesc.tBool] ∧
      TypeDesc.tBoolUnionFix ∈ [TypeDesc.tBool]) ∧
    recognize [] 2 (.scalar boolTag "true")
        (.tUnion [.tInt, .tBoolUnionFix, .tBool]) =
      some ([.tBool], RecErr.ok, .scalar boolTag "true") := by
  have h := c2_union_bool_fix_collapse [] 2 (.scalar boolTag "true")
    [.tInt, .tBoolUnionFix, .tBool] [.tBool] RecErr.ok
    (.scalar boolTag "true") rfl
  exact ⟨h.1, h.2.1⟩

/-- C10: on a mapping node, `get_attribute` returns the value node
exactly when precisely one entry's key matches the attribute; with the
key absent or duplicated it raises `SeasoningError` instead of picking
one entry — while `has_attribute` is already true whenever at least one
entry matches. -/
theorem c10_get_attribute_unique (tag : String)
    (entries : List (YNode × YNode)) (attr : String) :
    (∀ v, get_attribute (.mapping tag entries) attr = .ok v ↔
      (entries.filter (fun kv => keyMatches kv.1 attr)).map
        (fun kv => kv.2) = [v]) ∧
    ((entries.filter (fun kv => keyMatches kv.1 attr)).length ≠ 1 →
      get_attribute (.mapping tag entries) attr =
        .error ("Key not found, or found multiple times: " ++ attr)) ∧
    (has_attribute (.mapping tag entries) attr = true ↔
      1 ≤ (entries.filter (fun kv => keyMatches kv.1 attr)).length) := by
  refine ⟨?_, ?_, ?_⟩
  · intro v
    unfold get_attribute
    dsimp only
    cases hf : entries.filter (fun kv => keyMatches kv.1 attr) with
    | nil => simp
    | cons kv rest =>
      cases rest with
      | nil => simp
      | cons kv2 rest2 => simp
  · intro hlen
    unfold get_attribute
    dsimp only
    cases hf : entries.filter (fun kv => keyMatches kv.1 attr) with
    | nil => rfl
    | cons kv rest =>
      cases rest with
      | nil => exact absurd (by rw [hf]; rfl) hlen
      | cons kv2 rest2 => rfl
  · unfold has_attribute
    rw [List.any_eq_true]
    constructor
    · rintro ⟨kv, hmem, hp⟩
      have : kv ∈ entries.filter (fun kv => keyMatches kv.1 attr) :=
        List.mem_filter.mpr ⟨hmem, hp⟩
      calc 1 ≤ 1 := le_refl 1
        _ ≤ _ := List.length_pos.mpr (List.ne_nil_of_mem this)
    · intro hlen
      have hne : entries.filter (fun kv => keyMatches kv.1 attr) ≠ [] := by
        intro hc
        rw [hc] at hlen
        exact absurd hlen (by decide)
      obtain ⟨kv, hmem⟩ := List.exists_mem_of_ne_nil _ hne
      have := List.mem_filter.mp hmem
      exact ⟨kv, this.1, this.2⟩

/-- Witness for C10 on a mapping with a duplicated key `a`:
`has_attribute` answers true, while `get_attribute` raises. -/
theorem c10_get_attribute_unique_witness :
    has_attribute (.mapping mapTag
      [(.scalar strTag "a", .scalar intTag "1"),
       (.scalar strTag "a", .scalar intTag "2")]) "a" = true ∧
    get_attribute (.mapping mapTag
      [(.scalar strTag "a", .scalar intTag "1"),
       (.scalar strTag "a", .scalar intTag "2")]) "a" =
      .error ("Key not found, or found multiple times: " ++ "a") := by
  have h := c10_get_attribute_unique mapTag
    [(.scalar strTag "a", .scalar intTag "1"),
     (.scalar strTag "a", .scalar intTag "2")] "a"
  exact ⟨h.2.2.mpr (by decide), h.2.1 (by decide)⟩

/-- When no scanned class lists the expected class among its bases, the
subclass-collection loop passes its accumulators through unchanged. -/
theorem collectLoop_no_subclasses (recUC : UCFn)
    (scan : List ClassInfo) (cname : String) (node : YNode)
    (acc : List TypeDesc) (causes : List RecErr)
    (h : ∀ cj ∈ scan, cj.bases.contains cname = false) :
    collectLoop recUC scan cname node acc causes =
      some (acc, causes, node) := by
  induction scan with
  | nil => rfl
  | cons ci rest ih =>
    unfold collectLoop
    rw [h ci (List.mem_cons_self ci rest)]
    exact ih (fun cj hm => h cj (List.mem_cons_of_mem ci hm))

/-- One-step unfolding of the recursion at a user-classes input. -/
theorem recFuel_uc_succ (reg : Registry) (fuel : Nat) (node : YNode)
    (cname : String) (top : Bool) :
    recFuel reg (fuel + 1) (.uc node cname top) =
      recognize_user_classes
        (fun n c t => recFuel reg fuel (.uc n c t))
        (fun n t => recFuel reg fuel (.ty n t)) reg node cname top := rfl

/-- For a registered, non-abstract class that no registered class
derives from, one step of `__recognize_user_classes` is leaf recognition
followed by candidate resolution. -/
theorem recognizeUC_leaf_only (reg : Registry) (fuel : Nat)
    (node : YNode) (cname : String) (top : Bool)
    (hnosub : ∀ cj ∈ reg, cj.bases.contains cname = false)
    (hnotabs : is_abstract reg cname = false) :
    recognizeUC reg (fuel + 1) node cname top = (do
      let (r, result, n₁) ← recognize_user_class
        (fun n t => recFuel reg fuel (.ty n t)) reg node cname
      let (s, e) := resolveCandidates reg n₁ cname r
        (if r.isEmpty then [result] else [])
      some (s, e, n₁)) := by
  unfold recognizeUC
  rw [recFuel_uc_succ]
  unfold recognize_user_classes
  rw [collectLoop_no_subclasses _ reg cname node [] [] hnosub]
  simp only [Option.bind_eq_bind, Option.some_bind]
  unfold leafStep
  rw [hnotabs]
  simp only [List.isEmpty_nil, if_true, Bool.not_false, ite_true]
  cases hl : recognize_user_class
      (fun n t => recFuel reg fuel (.ty n t)) reg node cname with
  | none => rfl
  | some trip =>
    obtain ⟨r, result, n₁⟩ := trip
    simp only [Option.some_bind]
    cases hr : r.isEmpty <;> simp [hr]

/-- A class found by name lookup has that name. -/
theorem lookupClass_name {reg : Registry} {cname : String}
    {ci : ClassInfo} (h : lookupClass reg cname = some ci) :
    ci.name = cname := by
  have := List.find?_some h
  simpa using this

/-- A class found by name lookup is registered. -/
theorem lookupClass_mem {reg : Registry} {cname : String}
    {ci : ClassInfo} (h : lookupClass reg cname = some ci) :
    ci ∈ reg :=
  List.mem_of_find?_eq_some h

/-- Leaf recognition of an enum class without a custom hook: a scalar
tagged `str` or `bool` is accepted (and its tag rewritten to `str`),
anything else is rejected with the string-expected message. -/
theorem recognize_user_class_enum (recog : RecFn) (reg : Registry)
    (node : YNode) (cname : String) (ci : ClassInfo)
    (hci : lookupClass reg cname = some ci)
    (hnohook : ci.hasCustomRecognize = false)
    (henum : ci.isEnum = true) :
    recognize_user_class recog reg node cname = some (
      match node with
      | .scalar tag v =>
        if tag == "tag:yaml.org,2002:str" || tag == "tag:yaml.org,2002:bool"
        then ([.tClass ci.name], RecErr.ok,
          .scalar "tag:yaml.org,2002:str" v)
        else ([], .mk ("Expected a string matching "
          ++ type_to_desc (.tClass ci.name)) [], .scalar tag v)
      | n => ([], .mk ("Expected a string matching "
          ++ type_to_desc (.tClass ci.name)) [], n)) := by
  unfold recognize_user_class
  rw [hci]
  simp only [Option.bind_eq_bind, Option.some_bind, hnohook, henum,
    Bool.false_eq_true, if_false, if_true]
  cases node with
  | scalar tag v => by_cases h : (tag == "tag:yaml.org,2002:str"
      || tag == "tag:yaml.org,2002:bool") = true <;> simp [h]
  | sequence tag items => rfl
  | mapping tag entries => rfl

/-- Leaf recognition of a string-like class without a custom hook: only
a scalar tagged exactly `str` is accepted. -/
theorem recognize_user_class_strlike (recog : RecFn) (reg : Registry)
    (node : YNode) (cname : String) (ci : ClassInfo)
    (hci : lookupClass reg cname = some ci)
    (hnohook : ci.hasCustomRecognize = false)
    (henum : ci.isEnum = false) (hsl : ci.isStringLike = true) :
    recognize_user_class recog reg node cname = some (
      match node with
      | .scalar tag v =>
        if tag == "tag:yaml.org,2002:str"
        then ([.tClass ci.name], RecErr.ok, .scalar tag v)
        else ([], .mk ("Expected a string matching "
          ++ type_to_desc (.tClass ci.name)) [], .scalar tag v)
      | n => ([], .mk ("Expected a string matching "
          ++ type_to_desc (.tClass ci.name)) [], n)) := by
  unfold recognize_user_class
  rw [hci]
  simp only [Option.bind_eq_bind, Option.some_bind, hnohook, henum,
    hsl, Bool.false_eq_true, if_false, if_true]
  cases node with
  | scalar tag v => by_cases h : (tag == "tag:yaml.org,2002:str") = true <;>
      simp [h]
  | sequence tag items => rfl
  | mapping tag entries => rfl

/-- C6 (amended): for a registered enum or string-like class C with no
custom recognize hook, not abstract and with no registered subclasses:
a string-like C recognizes exactly the scalars tagged `str`; an enum C
recognizes the scalars tagged `str` **or `bool`** (a bool-tagged scalar
is accepted and its tag rewritten to `str` in place); every other node
yields the empty set whose cause is the
`Expected a string matching ...` error. -/
theorem c6_enum_strlike_recognition (reg : Registry) (fuel : Nat)
    (node : YNode) (cname : String) (ci : ClassInfo) (s : List TypeDesc)
    (e : RecErr) (n' : YNode)
    (hci : lookupClass reg cname = some ci)
    (hnosub : ∀ cj ∈ reg, cj.bases.contains cname = false)
    (hnohook : ci.hasCustomRecognize = false)
    (habs : ci.abstract = false)
    (hrun : recognize reg (fuel + 2) node (.tClass cname) =
      some (s, e, n')) :
    (ci.isEnum = true →
      (s = [.tClass cname] ↔
        ∃ v, node = .scalar "tag:yaml.org,2002:str" v ∨
          node = .scalar "tag:yaml.org,2002:bool" v) ∧
      (∀ v, node = .scalar "tag:yaml.org,2002:bool" v →
        s = [.tClass cname] ∧ e = RecErr.ok ∧
        n' = .scalar "tag:yaml.org,2002:str" v) ∧
      ((∀ v, node ≠ .scalar "tag:yaml.org,2002:str" v ∧
          node ≠ .scalar "tag:yaml.org,2002:bool" v) →
        s = [] ∧
        e = .mk ("Failed to recognize " ++ type_to_desc (.tClass cname))
          [.mk ("Expected a string matching "
            ++ type_to_desc (.tClass cname)) []])) ∧
    (ci.isEnum = false → ci.isStringLike = true →
      (s = [.tClass cname] ↔
        ∃ v, node = .scalar "tag:yaml.org,2002:str" v) ∧
      ((∀ v, node ≠ .scalar "tag:yaml.org,2002:str" v) →
        s = [] ∧
        e = .mk ("Failed to recognize " ++ type_to_desc (.tClass cname))
          [.mk ("Expected a string matching "
            ++ type_to_desc (.tClass cname)) []])) := by
  have hname : ci.name = cname := lookupClass_name hci
  have hreg : isRegistered reg cname = true := by
    unfold isRegistered
    rw [hci]
    rfl
  have hnotabs : is_abstract reg cname = false := by
    unfold is_abstract
    rw [hci]
    exact habs
  have hUC : recognizeUC reg (fuel + 1) node cname true =
      some (s, e, n') := by
    unfold recognize at hrun
    have hstep : recFuel reg (fuel + 1 + 1) (.ty node (.tClass cname)) =
        (if isRegistered reg cname = true then
          recFuel reg (fuel + 1) (.uc node cname true) else none) := rfl
    rw [hstep, hreg] at hrun
    simpa [recognizeUC] using hrun
  rw [recognizeUC_leaf_only reg fuel node cname true hnosub hnotabs]
    at hUC
  constructor
  · intro henum
    rw [recognize_user_class_enum _ reg node cname ci hci hnohook henum]
      at hUC
    cases node with
    | scalar tag v =>
      by_cases hst : (tag == "tag:yaml.org,2002:str"
          || tag == "tag:yaml.org,2002:bool") = true
      · simp only [hst, if_true, Option.bind_eq_bind, Option.some_bind,
          List.isEmpty_cons, Bool.false_eq_true, eq_self_iff_true,
          if_false] at hUC
        have hres : resolveCandidates reg
            (.scalar "tag:yaml.org,2002:str" v) cname
            [.tClass ci.name] [] = ([.tClass ci.name], RecErr.ok) := by
          have hsw : strStartsWith "tag:yaml.org,2002:str"
            "tag:yaml.org,2002" = true := rfl
          unfold resolveCandidates YNode.tag
          simp [hsw]
        rw [hres] at hUC
        simp only [Option.some.injEq, Prod.mk.injEq] at hUC
        obtain ⟨hs, he, hn⟩ := hUC
        rw [hname] at hs
        rcases Bool.or_eq_true _ _ |>.mp hst with hx | hx
        all_goals
          have htag := (beq_iff_eq).mp hx
          subst htag
          refine ⟨⟨fun _ => ⟨v, by simp⟩, fun _ => hs.symm⟩, ?_, ?_⟩
        · intro v' hv
          injection hv with h1 h2
          exact absurd h1 (by decide)
        · intro hcon
          exact absurd rfl (hcon v).1
        · intro v' hv
          injection hv with h1 h2
          subst h2
          exact ⟨hs.symm, he.symm, hn.symm⟩
        · intro hcon
          exact absurd rfl (hcon v).2
      · simp only [hst, Option.bind_eq_bind, Option.some_bind,
          List.isEmpty_nil, List.isEmpty_cons, Bool.false_eq_true,
          eq_self_iff_true, if_true, if_false] at hUC
        have hres : resolveCandidates reg (.scalar tag v) cname []
            [.mk ("Expected a string matching "
              ++ type_to_desc (.tClass ci.name)) []] =
            ([], .mk ("Failed to recognize "
              ++ type_to_desc (.tClass cname))
              [.mk ("Expected a string matching "
                ++ type_to_desc (.tClass ci.name)) []]) := by
          unfold resolveCandidates
          simp
        rw [hres] at hUC
        simp only [Option.some.injEq, Prod.mk.injEq] at hUC
        obtain ⟨hs, he, hn⟩ := hUC
        have hsne : tag ≠ "tag:yaml.org,2002:str" ∧
            tag ≠ "tag:yaml.org,2002:bool" := by
          constructor <;> (intro hc; subst hc; simp at hst)
        refine ⟨⟨fun hc => absurd hc.symm ?_, ?_⟩, ?_, ?_⟩
        · rw [← hs]
          simp
        · rintro ⟨v', hv | hv⟩ <;>
            (injection hv with h1 h2;
             first
               | exact absurd h1 hsne.1
               | exact absurd h1 hsne.2)
        · intro v' hv
          injection hv with h1 h2
          exact absurd h1 hsne.2
        · intro _
          rw [hname] at he
          exact ⟨hs.symm, he.symm⟩
    | sequence tag items =>
      simp only [Option.bind_eq_bind, Option.some_bind,
        List.isEmpty_nil, Bool.false_eq_true, eq_self_iff_true,
        if_true, if_false] at hUC
      have hres : resolveCandidates reg (.sequence tag items) cname []
          [.mk ("Expected a string matching "
            ++ type_to_desc (.tClass ci.name)) []] =
          ([], .mk ("Failed to recognize "
            ++ type_to_desc (.tClass cname))
            [.mk ("Expected a string matching "
              ++ type_to_desc (.tClass ci.name)) []]) := by
        unfold resolveCandidates
        simp
      rw [hres] at hUC
      simp only [Option.some.injEq, Prod.mk.injEq] at hUC
      obtain ⟨hs, he, hn⟩ := hUC
      refine ⟨⟨fun hc => absurd hc.symm (by rw [← hs]; simp), ?_⟩, ?_, ?_⟩
      · rintro ⟨v', hv | hv⟩ <;> cases hv
      · intro v' hv
        cases hv
      · intro _
        rw [hname] at he
        exact ⟨hs.symm, he.symm⟩
    | mapping tag entries =>
      simp only [Option.bind_eq_bind, Option.some_bind,
        List.isEmpty_nil, Bool.false_eq_true, eq_self_iff_true,
        if_true, if_false] at hUC
      have hres : resolveCandidates reg (.mapping tag entries) cname []
          [.mk ("Expected a string matching "
            ++ type_to_desc (.tClass ci.name)) []] =
          ([], .mk ("Failed to recognize "
            ++ type_to_desc (.tClass cname))
            [.mk ("Expected a string matching "
              ++ type_to_desc (.tClass ci.name)) []]) := by
        unfold resolveCandidates
        simp
      rw [hres] at hUC
      simp only [Option.some.injEq, Prod.mk.injEq] at hUC
      obtain ⟨hs, he, hn⟩ := hUC
      refine ⟨⟨fun hc => absurd hc.symm (by rw [← hs]; simp), ?_⟩, ?_, ?_⟩
      · rintro ⟨v', hv | hv⟩ <;> cases hv
      · intro v' hv
        cases hv
      · intro _
        rw [hname] at he
        exact ⟨hs.symm, he.symm⟩
  · intro henum hsl
    rw [recognize_user_class_strlike _ reg node cname ci hci hnohook
      henum hsl] at hUC
    cases node with
    | scalar tag v =>
      by_cases hst : (tag == "tag:yaml.org,2002:str") = true
      · have htag := (beq_iff_eq).mp hst
        subst htag
        simp only [hst, if_true, Option.bind_eq_bind, Option.some_bind,
          List.isEmpty_cons, Bool.false_eq_true, eq_self_iff_true,
          if_false] at hUC
        have hres : resolveCandidates reg
            (.scalar "tag:yaml.org,2002:str" v) cname
            [.tClass ci.name] [] = ([.tClass ci.name], RecErr.ok) := by
          have hsw : strStartsWith "tag:yaml.org,2002:str"
            "tag:yaml.org,2002" = true := rfl
          unfold resolveCandidates YNode.tag
          simp [hsw]
        rw [hres] at hUC
        simp only [Option.some.injEq, Prod.mk.injEq] at hUC
        obtain ⟨hs, he, hn⟩ := hUC
        rw [hname] at hs
        refine ⟨⟨fun _ => ⟨v, rfl⟩, fun _ => hs.symm⟩, ?_⟩
        intro hcon
        exact absurd rfl (hcon v)
      · simp only [hst, Option.bind_eq_bind, Option.some_bind,
          List.isEmpty_nil, List.isEmpty_cons, Bool.false_eq_true,
          eq_self_iff_true, if_true, if_false] at hUC
        have hres : resolveCandidates reg (.scalar tag v) cname []
            [.mk ("Expected a string matching "
              ++ type_to_desc (.tClass ci.name)) []] =
            ([], .mk ("Failed to recognize "
              ++ type_to_desc (.tClass cname))
              [.mk ("Expected a string matching "
                ++ type_to_desc (.tClass ci.name)) []]) := by
          unfold resolveCandidates
          simp
        rw [hres] at hUC
        simp only [Option.some.injEq, Prod.mk.injEq] at hUC
        obtain ⟨hs, he, hn⟩ := hUC
        have hsne : tag ≠ "tag:yaml.org,2002:str" := by
          intro hc
          subst hc
          simp at hst
        refine ⟨⟨fun hc => absurd hc.symm (by rw [← hs]; simp), ?_⟩, ?_⟩
        · rintro ⟨v', hv⟩
          injection hv with h1 h2
          exact absurd h1 hsne
        · intro _
          rw [hname] at he
          exact ⟨hs.symm, he.symm⟩
    | sequence tag items =>
      simp only [Option.bind_eq_bind, Option.some_bind,
        List.isEmpty_nil, Bool.false_eq_true, eq_self_iff_true,
        if_true, if_false] at hUC
      have hres : resolveCandidates reg (.sequence tag items) cname []
          [.mk ("Expected a string matching "
            ++ type_to_desc (.tClass ci.name)) []] =
          ([], .mk ("Failed to recognize "
            ++ type_to_desc (.tClass cname))
            [.mk ("Expected a string matching "
              ++ type_to_desc (.tClass ci.name)) []]) := by
        unfold resolveCandidates
        simp
      rw [hres] at hUC
      simp only [Option.some.injEq, Prod.mk.injEq] at hUC
      obtain ⟨hs, he, hn⟩ := hUC
      refine ⟨⟨fun hc => absurd hc.symm (by rw [← hs]; simp), ?_⟩, ?_⟩
      · rintro ⟨v', hv⟩
        cases hv
      · intro _
        rw [hname] at he
        exact ⟨hs.symm, he.symm⟩
    | mapping tag entries =>
      simp only [Option.bind_eq_bind, Option.some_bind,
        List.isEmpty_nil, Bool.false_eq_true, eq_self_iff_true,
        if_true, if_false] at hUC
      have hres : resolveCandidates reg (.mapping tag entries) cname []
          [.mk ("Expected a string matching "
            ++ type_to_desc (.tClass ci.name)) []] =
          ([], .mk ("Failed to recognize "
            ++ type_to_desc (.tClass cname))
            [.mk ("Expected a string matching "
              ++ type_to_desc (.tClass ci.name)) []]) := by
        unfold resolveCandidates
        simp
      rw [hres] at hUC
      simp only [Option.some.injEq, Prod.mk.injEq] at hUC
      obtain ⟨hs, he, hn⟩ := hUC
      refine ⟨⟨fun hc => absurd hc.symm (by rw [← hs]; simp), ?_⟩, ?_⟩
      · rintro ⟨v', hv⟩
        cases hv
      · intro _
        rw [hname] at he
        exact ⟨hs.symm, he.symm⟩

/-- A registry holding one enum class `E`. -/
def regEnum : Registry := [enumClass "E" []]

/-- A registry holding one string-like class `S`. -/
def regStrLike : Registry := [strLikeClass "S" []]

/-- Counterexample to C6 as stated: recognizing the registered enum
class `E` on a scalar tagged `bool` yields the singleton containing `E`
(and rewrites the node's tag in place), not the empty set the claim
requires for every scalar whose tag is not the string tag. -/
theorem c6_counterexample :
    recognize regEnum 3 (.scalar "tag:yaml.org,2002:bool" "true")
        (.tClass "E") =
      some ([.tClass "E"], RecErr.ok,
        .scalar "tag:yaml.org,2002:str" "true") ∧
    ([TypeDesc.tClass "E"] ≠ ([] : List TypeDesc)) ∧
    "tag:yaml.org,2002:bool" ≠ "tag:yaml.org,2002:str" := by
  refine ⟨rfl, by simp, by decide⟩

/-- Witness for the amended C6: the enum accepts a bool-tagged scalar,
the string-like class accepts a str-tagged scalar. -/
theorem c6_enum_strlike_recognition_witness :
    (∃ v, YNode.scalar "tag:yaml.org,2002:bool" "on" =
        .scalar "tag:yaml.org,2002:str" v ∨
      YNode.scalar "tag:yaml.org,2002:bool" "on" =
        .scalar "tag:yaml.org,2002:bool" v) ∧
    (∃ v, YNode.scalar "tag:yaml.org,2002:str" "hi" =
        .scalar "tag:yaml.org,2002:str" v) := by
  constructor
  · have h := c6_enum_strlike_recognition regEnum 1
      (.scalar "tag:yaml.org,2002:bool" "on") "E" (enumClass "E" [])
      [.tClass "E"] RecErr.ok (.scalar "tag:yaml.org,2002:str" "on")
      rfl
      (by
        intro cj hm
        simp only [regEnum, List.mem_singleton] at hm
        subst hm
        rfl)
      rfl rfl rfl
    exact (h.1 rfl).1.mp rfl
  · have h := c6_enum_strlike_recognition regStrLike 1
      (.scalar "tag:yaml.org,2002:str" "hi") "S" (strLikeClass "S" [])
      [.tClass "S"] RecErr.ok (.scalar "tag:yaml.org,2002:str" "hi")
      rfl
      (by
        intro cj hm
        simp only [regStrLike, List.mem_singleton] at hm
        subst hm
        rfl)
      rfl rfl rfl
    exact (h.2 rfl rfl).1.mp rfl

/-- The node component of a recursion input. -/
def RecInput.node : RecInput → YNode
  | .ty n _ => n
  | .uc n _ _ => n

/-- A recognition function that never updates the node. -/
def PreservesNode (recog : RecFn) : Prop :=
  ∀ n t s e n', recog n t = some (s, e, n') → n' = n

/-- A user-classes recognition function that never updates the node. -/
def PreservesNodeUC (recUC : UCFn) : Prop :=
  ∀ n c top s e n', recUC n c top = some (s, e, n') → n' = n

/-- Scalar recognition never updates the node. -/
theorem recognize_scalar_preserves (node : YNode) (t : TypeDesc) :
    (recognize_scalar node t).2.2 = node := by
  unfold recognize_scalar
  cases node <;> cases scalar_type_to_tag t <;> simp <;> split <;> rfl

/-- The union loop threads an unchanged node when the recognizer
preserves nodes. -/
theorem unionLoop_preserves (recog : RecFn) (hrec : PreservesNode recog)
    (ts : List TypeDesc) :
    ∀ node acc causes s cs n',
      unionLoop recog ts node acc causes = some (s, cs, n') →
      n' = node := by
  induction ts with
  | nil =>
    intro node acc causes s cs n' h
    unfold unionLoop at h
    simp at h
    exact h.2.2.symm
  | cons t rest ih =>
    intro node acc causes s cs n' h
    unfold unionLoop at h
    cases hr : recog node t with
    | none =>
      rw [hr] at h
      simp at h
    | some trip =>
      obtain ⟨r, result, node₁⟩ := trip
      rw [hr] at h
      simp only [Option.bind_eq_bind, Option.some_bind] at h
      have h1 := ih node₁ _ _ _ _ _ h
      rw [h1]
      exact hrec node t r result node₁ hr

/-- Union recognition never updates the node when the recognizer
preserves nodes. -/
theorem recognize_union_preserves (recog : RecFn)
    (hrec : PreservesNode recog) (node : YNode) (alts : List TypeDesc)
    (s : List TypeDesc) (e : RecErr) (n' : YNode)
    (h : recognize_union recog node alts = some (s, e, n')) :
    n' = node := by
  unfold recognize_union at h
  cases hu : unionLoop recog alts node [] [] with
  | none =>
    rw [hu] at h
    simp at h
  | some trip =>
    obtain ⟨rts, causes, node₁⟩ := trip
    have h1 := unionLoop_preserves recog hrec alts node [] [] _ _ _ hu
    rw [hu] at h
    simp only [Option.bind_eq_bind, Option.some_bind] at h
    subst h1
    repeat' split at h
    all_goals
      simp only [Option.some.injEq, Prod.mk.injEq] at h
      exact h.2.2.symm

/-- The list loop rebuilds the sequence from the already-processed
prefix and the remaining items; with a node-preserving recognizer the
result is the original sequence. -/
theorem listLoop_preserves (recog : RecFn) (hrec : PreservesNode recog)
    (itemType expected : TypeDesc) (tag : String) (todo : List YNode) :
    ∀ done s e n',
      listLoop recog itemType expected tag done todo = some (s, e, n') →
      n' = .sequence tag (done ++ todo) := by
  induction todo with
  | nil =>
    intro done s e n' h
    unfold listLoop at h
    simp at h
    rw [← h.2.2]
    simp
  | cons item rest ih =>
    intro done s e n' h
    unfold listLoop at h
    cases hr : recog item itemType with
    | none =>
      rw [hr] at h
      simp at h
    | some trip =>
      obtain ⟨r, result, item'⟩ := trip
      have hitem : item' = item := hrec item itemType r result item' hr
      rw [hr] at h
      simp only [Option.bind_eq_bind, Option.some_bind] at h
      rw [hitem] at h
      by_cases h0 : r.isEmpty = true
      · rw [if_pos h0] at h
        simp only [Option.some.injEq, Prod.mk.injEq] at h
        exact h.2.2.symm
      · rw [if_neg h0] at h
        by_cases h1 : r.length > 1
        · rw [if_pos h1] at h
          simp only [Option.some.injEq, Prod.mk.injEq] at h
          exact h.2.2.symm
        · rw [if_neg h1] at h
          have := ih (done ++ [item]) s e n' h
          simpa using this

/-- List recognition never updates the node when the recognizer
preserves nodes. -/
theorem recognize_list_preserves (recog : RecFn)
    (hrec : PreservesNode recog) (node : YNode) (itemType : TypeDesc)
    (s : List TypeDesc) (e : RecErr) (n' : YNode)
    (h : recognize_list recog node itemType = some (s, e, n')) :
    n' = node := by
  unfold recognize_list at h
  cases node with
  | scalar tag v =>
    simp at h
    exact h.2.2.symm
  | sequence tag items =>
    have := listLoop_preserves recog hrec itemType _ tag items [] s e n' h
    simpa using this
  | mapping tag entries =>
    simp at h
    exact h.2.2.symm

/-- The dict loop rebuilds the mapping from the processed prefix and the
remaining entries; with a node-preserving recognizer the result is the
original mapping. -/
theorem dictLoop_preserves (recog : RecFn) (hrec : PreservesNode recog)
    (keyType valueType expected : TypeDesc) (tag : String)
    (todo : List (YNode × YNode)) :
    ∀ done s e n',
      dictLoop recog keyType valueType expected tag done todo =
        some (s, e, n') →
      n' = .mapping tag (done ++ todo) := by
  induction todo with
  | nil =>
    intro done s e n' h
    unfold dictLoop at h
    simp at h
    rw [← h.2.2]
    simp
  | cons kv rest ih =>
    obtain ⟨key, value⟩ := kv
    intro done s e n' h
    unfold dictLoop at h
    cases hk : recog key keyType with
    | none =>
      rw [hk] at h
      simp at h
    | some ktrip =>
      obtain ⟨rk, kres, key'⟩ := ktrip
      have hkey : key' = key := hrec key keyType rk kres key' hk
      rw [hk] at h
      simp only [Option.bind_eq_bind, Option.some_bind] at h
      rw [hkey] at h
      by_cases h0 : rk.isEmpty = true
      · rw [if_pos h0] at h
        simp only [Option.some.injEq, Prod.mk.injEq] at h
        exact h.2.2.symm
      · rw [if_neg h0] at h
        by_cases h1 : rk.length > 1
        · rw [if_pos h1] at h
          simp only [Option.some.injEq, Prod.mk.injEq] at h
          exact h.2.2.symm
        · rw [if_neg h1] at h
          cases hv : recog value valueType with
          | none =>
            rw [hv] at h
            simp at h
          | some vtrip =>
            obtain ⟨rv, vres, value'⟩ := vtrip
            have hval : value' = value :=
              hrec value valueType rv vres value' hv
            rw [hv] at h
            simp only [Option.bind_eq_bind, Option.some_bind] at h
            rw [hval] at h
            by_cases h2 : rv.isEmpty = true
            · rw [if_pos h2] at h
              simp only [Option.some.injEq, Prod.mk.injEq] at h
              exact h.2.2.symm
            · rw [if_neg h2] at h
              by_cases h3 : rv.length > 1
              · rw [if_pos h3] at h
                simp only [Option.some.injEq, Prod.mk.injEq] at h
                exact h.2.2.symm
              · rw [if_neg h3] at h
                have := ih (done ++ [(key, value)]) s e n' h
                simpa using this

/-- Dict recognition never updates the node when the recognizer
preserves nodes. -/
theorem recognize_dict_preserves (reg : Registry) (recog : RecFn)
    (hrec : PreservesNode recog) (node : YNode)
    (keyType valueType : TypeDesc) (s : List TypeDesc) (e : RecErr)
    (n' : YNode)
    (h : recognize_dict reg recog node keyType valueType =
      some (s, e, n')) :
    n' = node := by
  unfold recognize_dict at h
  by_cases hsl : is_string_like reg keyType = true
  · simp only [hsl, Bool.not_true, Bool.false_eq_true, if_false] at h
    cases node with
    | scalar tag v =>
      simp at h
      exact h.2.2.symm
    | sequence tag items =>
      simp at h
      exact h.2.2.symm
    | mapping tag entries =>
      have := dictLoop_preserves recog hrec keyType valueType _ tag
        entries [] s e n' h
      simpa using this
  · simp only [Bool.not_eq_true] at hsl
    rw [hsl] at h
    simp at h

/-- Writing back into entries with no matching key changes nothing. -/
theorem writeBackAttr_no_match (entries : List (YNode × YNode))
    (attr : String) (v : YNode)
    (h : ∀ kv ∈ entries, keyMatches kv.1 attr = false) :
    writeBackAttr entries attr v = entries := by
  induction entries with
  | nil => rfl
  | cons kv rest ih =>
    unfold writeBackAttr
    simp only [List.map_cons]
    rw [h kv (List.mem_cons_self kv rest)]
    simp only [Bool.false_eq_true, if_false]
    have := ih (fun x hm => h x (List.mem_cons_of_mem kv hm))
    unfold writeBackAttr at this
    rw [this]

/-- Writing the attribute's own (unique) value back into a mapping's
entries changes nothing. -/
theorem writeBackAttr_self (mtag : String)
    (entries : List (YNode × YNode)) (attr : String) (v : YNode)
    (h : get_attribute (.mapping mtag entries) attr = .ok v) :
    writeBackAttr entries attr v = entries := by
  unfold get_attribute at h
  dsimp only at h
  induction entries with
  | nil => rfl
  | cons kv rest ih =>
    by_cases hm : keyMatches kv.1 attr = true
    · rw [List.filter_cons] at h
      simp only [hm, if_true] at h
      cases hrest : rest.filter (fun kv => keyMatches kv.1 attr) with
      | cons kv2 rest2 =>
        rw [hrest] at h
        cases h
      | nil =>
        rw [hrest] at h
        simp only [Except.ok.injEq] at h
        have hnone : ∀ x ∈ rest, keyMatches x.1 attr = false := by
          intro x hx
          by_cases hk : keyMatches x.1 attr = true
          · exact absurd (List.mem_filter.mpr ⟨hx, hk⟩)
              (by rw [hrest]; simp)
          · simpa using hk
        unfold writeBackAttr
        simp only [List.map_cons, hm, if_true]
        rw [← h]
        have hw := writeBackAttr_no_match rest attr kv.2 hnone
        unfold writeBackAttr at hw
        rw [hw]
    · have hm' : keyMatches kv.1 attr = false := by simpa using hm
      rw [List.filter_cons] at h
      simp only [hm', Bool.false_eq_true, if_false] at h
      unfold writeBackAttr
      simp only [List.map_cons, hm', Bool.false_eq_true, if_false]
      have := ih h
      unfold writeBackAttr at this
      rw [this]

/-- The attribute loop leaves the mapping unchanged when the recognizer
preserves nodes. -/
theorem attrLoop_preserves (recog : RecFn) (hrec : PreservesNode recog)
    (ci : ClassInfo) (mtag : String)
    (attrs : List (String × TypeDesc × Bool)) :
    ∀ entries s e n',
      attrLoop recog ci mtag attrs entries = some (s, e, n') →
      n' = .mapping mtag entries := by
  induction attrs with
  | nil =>
    intro entries s e n' h
    unfold attrLoop at h
    simp at h
    exact h.2.2.symm
  | cons a rest ih =>
    obtain ⟨attrName, attrType, required⟩ := a
    intro entries s e n' h
    unfold attrLoop at h
    dsimp only at h
    split at h
    case h_1 name hfound =>
      cases hget : (get_attribute (.mapping mtag entries) name).toOption
        with
      | none =>
        rw [hget] at h
        simp at h
      | some subnode =>
        rw [hget] at h
        simp only [Option.bind_eq_bind, Option.some_bind] at h
        cases hr : recog subnode attrType with
        | none =>
          rw [hr] at h
          simp at h
        | some trip =>
          obtain ⟨r, result, sub'⟩ := trip
          have hsub : sub' = subnode :=
            hrec subnode attrType r result sub' hr
          rw [hr] at h
          simp only [Option.bind_eq_bind, Option.some_bind] at h
          rw [hsub] at h
          have hok : get_attribute (.mapping mtag entries) name =
              .ok subnode := by
            cases hga : get_attribute (.mapping mtag entries) name with
            | ok w =>
              rw [hga] at hget
              simp only [Except.toOption] at hget
              cases hget
              rfl
            | error msg =>
              rw [hga] at hget
              simp [Except.toOption] at hget
          rw [writeBackAttr_self mtag entries name subnode hok] at h
          by_cases h0 : r.isEmpty = true
          · rw [if_pos h0] at h
            simp only [Option.some.injEq, Prod.mk.injEq] at h
            exact h.2.2.symm
          · rw [if_neg h0] at h
            exact ih entries s e n' h
    case h_2 hfound =>
      by_cases hreq : required = true
      · rw [if_pos hreq] at h
        simp only [Option.some.injEq, Prod.mk.injEq] at h
        exact h.2.2.symm
      · rw [if_neg hreq] at h
        exact ih entries s e n' h

/-- Leaf user-class recognition preserves the node when the registry has
no enum classes and the recognizer preserves nodes (the enum branch is
the only mutation site; custom hooks are modelled as pure). -/
theorem recognize_user_class_preserves (recog : RecFn)
    (hrec : PreservesNode recog) (reg : Registry)
    (hne : ∀ ci ∈ reg, ci.isEnum = false) (node : YNode) (cname : String)
    (s : List TypeDesc) (e : RecErr) (n' : YNode)
    (h : recognize_user_class recog reg node cname = some (s, e, n')) :
    n' = node := by
  unfold recognize_user_class at h
  cases hci : lookupClass reg cname with
  | none =>
    rw [hci] at h
    simp at h
  | some ci =>
    rw [hci] at h
    simp only [Option.bind_eq_bind, Option.some_bind] at h
    have henum : ci.isEnum = false := hne ci (lookupClass_mem hci)
    by_cases hhook : ci.hasCustomRecognize = true
    · rw [if_pos hhook] at h
      cases hcr : ci.customRecognize node with
      | none =>
        rw [hcr] at h
        simp only [Option.some.injEq, Prod.mk.injEq] at h
        exact h.2.2.symm
      | some m =>
        rw [hcr] at h
        simp only [Option.some.injEq, Prod.mk.injEq] at h
        exact h.2.2.symm
    · rw [if_neg hhook] at h
      rw [henum] at h
      simp only [Bool.false_eq_true, if_false] at h
      by_cases hsl : ci.isStringLike = true
      · rw [if_pos hsl] at h
        cases node with
        | scalar tag v =>
          dsimp only at h
          split at h <;>
            (simp only [Option.some.injEq, Prod.mk.injEq] at h;
             exact h.2.2.symm)
        | sequence tag items =>
          simp only [Option.some.injEq, Prod.mk.injEq] at h
          exact h.2.2.symm
        | mapping tag entries =>
          simp only [Option.some.injEq, Prod.mk.injEq] at h
          exact h.2.2.symm
      · rw [if_neg hsl] at h
        cases node with
        | scalar tag v =>
          simp only [Option.some.injEq, Prod.mk.injEq] at h
          exact h.2.2.symm
        | sequence tag items =>
          simp only [Option.some.injEq, Prod.mk.injEq] at h
          exact h.2.2.symm
        | mapping tag entries =>
          exact attrLoop_preserves recog hrec ci tag ci.attrs entries
            s e n' h

/-- The subclass-collection loop threads an unchanged node when the
recursive calls preserve nodes. -/
theorem collectLoop_preserves (recUC : UCFn)
    (hrec : PreservesNodeUC recUC) (cname : String)
    (scan : List ClassInfo) :
    ∀ node acc causes s cs n',
      collectLoop recUC scan cname node acc causes = some (s, cs, n') →
      n' = node := by
  induction scan with
  | nil =>
    intro node acc causes s cs n' h
    unfold collectLoop at h
    simp at h
    exact h.2.2.symm
  | cons ci rest ih =>
    intro node acc causes s cs n' h
    unfold collectLoop at h
    by_cases hb : ci.bases.contains cname = true
    · rw [if_pos hb] at h
      cases hr : recUC node ci.name false with
      | none =>
        rw [hr] at h
        simp at h
      | some trip =>
        obtain ⟨r, result, node₁⟩ := trip
        rw [hr] at h
        simp only [Option.bind_eq_bind, Option.some_bind] at h
        have h1 := ih node₁ _ _ _ _ _ h
        rw [h1]
        exact hrec node ci.name false r result node₁ hr
    · rw [if_neg hb] at h
      exact ih node _ _ _ _ _ h

/-- The whole recognizer recursion preserves the node when the registry
has no enum classes. -/
theorem recFuel_preserves (reg : Registry)
    (hne : ∀ ci ∈ reg, ci.isEnum = false) :
    ∀ fuel inp s e n', recFuel reg fuel inp = some (s, e, n') →
      n' = inp.node := by
  intro fuel
  induction fuel with
  | zero =>
    intro inp s e n' h
    simp [recFuel] at h
  | succ f ih =>
    have hrec : PreservesNode (fun n t => recFuel reg f (.ty n t)) := by
      intro n t s e n' h
      exact ih (.ty n t) s e n' h
    have hrecUC : PreservesNodeUC
        (fun n c top => recFuel reg f (.uc n c top)) := by
      intro n c top s e n' h
      exact ih (.uc n c top) s e n' h
    intro inp s e n' h
    cases inp with
    | uc node cname top =>
      rw [recFuel_uc_succ] at h
      unfold recognize_user_classes at h
      cases hcol : collectLoop (fun n c t => recFuel reg f (.uc n c t))
          reg cname node [] [] with
      | none =>
        rw [hcol] at h
        simp at h
      | some ctrip =>
        obtain ⟨subs, causes, n₁⟩ := ctrip
        have h1 : n₁ = node :=
          collectLoop_preserves _ hrecUC cname reg node [] [] _ _ _ hcol
        rw [hcol] at h
        simp only [Option.bind_eq_bind, Option.some_bind] at h
        unfold leafStep at h
        by_cases h0 : subs.isEmpty = true
        · rw [if_pos h0] at h
          by_cases habs : is_abstract reg cname = true
          · rw [habs] at h
            simp only [Bool.not_true, Bool.false_eq_true, if_false] at h
            simp only [Option.some_bind, Option.some.injEq,
              Prod.mk.injEq] at h
            rw [← h.2.2, h1]
            rfl
          · have habs' : is_abstract reg cname = false := by
              simpa using habs
            rw [habs'] at h
            simp only [Bool.not_false, if_true] at h
            cases hl : recognize_user_class
                (fun n t => recFuel reg f (.ty n t)) reg n₁ cname with
            | none =>
              rw [hl] at h
              simp at h
            | some ltrip =>
              obtain ⟨r, result, n₂⟩ := ltrip
              have h2 : n₂ = n₁ :=
                recognize_user_class_preserves _ hrec reg hne n₁ cname
                  _ _ _ hl
              rw [hl] at h
              simp only [Option.bind_eq_bind, Option.some_bind,
                Option.some.injEq, Prod.mk.injEq] at h
              rw [← h.2.2, h2, h1]
              rfl
        · rw [if_neg h0] at h
          simp only [Option.some_bind, Option.some.injEq,
            Prod.mk.injEq] at h
          rw [← h.2.2, h1]
          rfl
    | ty node expected =>
      by_cases hsc : isScalarType expected = true
      · have hstep : recFuel reg (f + 1) (.ty node expected) =
            some (recognize_scalar node expected) := by
          unfold recFuel
          rw [hsc]
          simp
        rw [hstep] at h
        have hp := recognize_scalar_preserves node expected
        cases hr : recognize_scalar node expected with
        | mk a bc =>
          rw [hr] at h hp
          obtain ⟨b, c⟩ := bc
          simp only [Option.some.injEq, Prod.mk.injEq] at h
          rw [← h.2.2]
          exact hp
      · have hsc' : isScalarType expected = false := by simpa using hsc
        cases expected with
        | tUnion alts =>
          have hstep : recFuel reg (f + 1) (.ty node (.tUnion alts)) =
              recognize_union (fun n t => recFuel reg f (.ty n t))
                node alts := rfl
          rw [hstep] at h
          exact recognize_union_preserves _ hrec node alts s e n' h
        | tList item =>
          have hstep : recFuel reg (f + 1) (.ty node (.tList item)) =
              recognize_list (fun n t => recFuel reg f (.ty n t))
                node item := rfl
          rw [hstep] at h
          exact recognize_list_preserves _ hrec node item s e n' h
        | tDict k v =>
          have hstep : recFuel reg (f + 1) (.ty node (.tDict k v)) =
              recognize_dict reg (fun n t => recFuel reg f (.ty n t))
                node k v := rfl
          rw [hstep] at h
          exact recognize_dict_preserves reg _ hrec node k v s e n' h
        | tClass c =>
          have hstep : recFuel reg (f + 1) (.ty node (.tClass c)) =
              (if isRegistered reg c = true then
                recFuel reg f (.uc node c true) else none) := rfl
          rw [hstep] at h
          by_cases hr : isRegistered reg c = true
          · rw [if_pos hr] at h
            exact ih (.uc node c true) s e n' h
          · rw [if_neg hr] at h
            simp at h
        | tAny =>
          have hstep : recFuel reg (f + 1) (.ty node .tAny) =
              some ([.tAny], RecErr.ok, node) := rfl
          rw [hstep] at h
          simp only [Option.some.injEq, Prod.mk.injEq] at h
          exact h.2.2.symm
        | tStr => simp [isScalarType, scalar_type_to_tag] at hsc'
        | tInt => simp [isScalarType, scalar_type_to_tag] at hsc'
        | tFloat => simp [isScalarType, scalar_type_to_tag] at hsc'
        | tBool => simp [isScalarType, scalar_type_to_tag] at hsc'
        | tBoolUnionFix => simp [isScalarType, scalar_type_to_tag] at hsc'
        | tNull => simp [isScalarType, scalar_type_to_tag] at hsc'
        | tDate => simp [isScalarType, scalar_type_to_tag] at hsc'

/-- C5 (amended): as long as no enum class is registered, `recognize`
never mutates the node — the returned node is the input — and therefore
a repeated call returns the identical result.  (With an enum class
registered, the enum branch rewrites a bool-tagged scalar's tag in
place; see the counterexample.) -/
theorem c5_recognize_no_mutation (reg : Registry) (fuel : Nat)
    (node : YNode) (t : TypeDesc) (s : List TypeDesc) (e : RecErr)
    (n' : YNode) (hne : ∀ ci ∈ reg, ci.isEnum = false)
    (h : recognize reg fuel node t = some (s, e, n')) :
    n' = node ∧
    recognize reg fuel n' t = recognize reg fuel node t := by
  have hp : n' = node := recFuel_preserves reg hne fuel (.ty node t) s e n' h
  exact ⟨hp, by rw [hp]⟩

/-- Counterexample to C5 as stated: with the enum class `E` registered,
recognizing `E` on a bool-tagged scalar returns a node whose tag was
rewritten to `str` — the node is mutated — and recognizing
`Union[bool, E]` twice on the same node gives two different result sets
({bool, E} first, then {E}). -/
theorem c5_counterexample :
    recognize regEnum 3 (.scalar "tag:yaml.org,2002:bool" "true")
        (.tClass "E") =
      some ([.tClass "E"], RecErr.ok,
        .scalar "tag:yaml.org,2002:str" "true") ∧
    YNode.scalar "tag:yaml.org,2002:str" "true" ≠
      .scalar "tag:yaml.org,2002:bool" "true" ∧
    recognize regEnum 4 (.scalar "tag:yaml.org,2002:bool" "true")
        (.tUnion [.tBool, .tClass "E"]) =
      some ([.tBool, .tClass "E"],
        .mk ("Could not determine which of the following types"
          ++ " this is: a boolean or a(n) E") [],
        .scalar "tag:yaml.org,2002:str" "true") ∧
    recognize regEnum 4 (.scalar "tag:yaml.org,2002:str" "true")
        (.tUnion [.tBool, .tClass "E"]) =
      some ([.tClass "E"], RecErr.ok,
        .scalar "tag:yaml.org,2002:str" "true") ∧
    ([TypeDesc.tBool, TypeDesc.tClass "E"] ≠ [TypeDesc.tClass "E"]) := by
  refine ⟨rfl, ?_, rfl, ?_, ?_⟩
  · intro hc
    injection hc with h1 h2
    exact absurd h1 (by decide)
  · rfl
  · intro hc
    have := congrArg List.length hc
    simp at this

/-- Witness for the amended C5: with no enum classes registered (here,
none at all), recognizing an int scalar returns the node unchanged. -/
theorem c5_recognize_no_mutation_witness :
    YNode.scalar "tag:yaml.org,2002:int" "1" =
      .scalar "tag:yaml.org,2002:int" "1" ∧
    recognize [] 1 (.scalar "tag:yaml.org,2002:int" "1") .tInt =
      recognize [] 1 (.scalar "tag:yaml.org,2002:int" "1") .tInt := by
  have h := c5_recognize_no_mutation [] 1
    (.scalar "tag:yaml.org,2002:int" "1") .tInt [.tInt] RecErr.ok
    (.scalar "tag:yaml.org,2002:int" "1") (by intro ci hm; cases hm) rfl
  exact ⟨h.1, h.2⟩

/-- How one recognition call can change the top node's tag: it keeps it,
or (the enum rewrite) turns a `bool` tag into a `str` tag. -/
def TagStep (t t' : String) : Prop :=
  t' = t ∨ (t = "tag:yaml.org,2002:bool" ∧ t' = "tag:yaml.org,2002:str")

theorem TagStep.refl (t : String) : TagStep t t := Or.inl (Eq.refl t)

theorem TagStep.trans {a b c : String} (h1 : TagStep a b)
    (h2 : TagStep b c) : TagStep a c := by
  rcases h1 with h1 | ⟨h1a, h1b⟩
  · rcases h2 with h2 | ⟨h2a, h2b⟩
    · exact Or.inl (h2.trans h1)
    · exact Or.inr ⟨h1 ▸ h2a, h2b⟩
  · rcases h2 with h2 | ⟨h2a, h2b⟩
    · exact Or.inr ⟨h1a, h2 ▸ h1b⟩
    · exact Or.inr ⟨h1a, h2b⟩

/-- A recognition function whose output node's tag is a `TagStep` of its
input node's tag. -/
def TagSteps (recog : RecFn) : Prop :=
  ∀ n t s e n', recog n t = some (s, e, n') → TagStep n.tag n'.tag

/-- The user-classes variant of `TagSteps`. -/
def TagStepsUC (recUC : UCFn) : Prop :=
  ∀ n c top s e n', recUC n c top = some (s, e, n') →
    TagStep n.tag n'.tag

theorem unionLoop_tag (recog : RecFn) (hrec : TagSteps recog)
    (ts : List TypeDesc) :
    ∀ node acc causes s cs n',
      unionLoop recog ts node acc causes = some (s, cs, n') →
      TagStep node.tag n'.tag := by
  induction ts with
  | nil =>
    intro node acc causes s cs n' h
    unfold unionLoop at h
    simp at h
    rw [← h.2.2]
    exact TagStep.refl _
  | cons t rest ih =>
    intro node acc causes s cs n' h
    unfold unionLoop at h
    cases hr : recog node t with
    | none =>
      rw [hr] at h
      simp at h
    | some trip =>
      obtain ⟨r, result, node₁⟩ := trip
      rw [hr] at h
      simp only [Option.bind_eq_bind, Option.some_bind] at h
      exact (hrec node t r result node₁ hr).trans (ih node₁ _ _ _ _ _ h)

theorem recognize_union_tag (recog : RecFn) (hrec : TagSteps recog)
    (node : YNode) (alts : List TypeDesc) (s : List TypeDesc)
    (e : RecErr) (n' : YNode)
    (h : recognize_union recog node alts = some (s, e, n')) :
    TagStep node.tag n'.tag := by
  unfold recognize_union at h
  cases hu : unionLoop recog alts node [] [] with
  | none =>
    rw [hu] at h
    simp at h
  | some trip =>
    obtain ⟨rts, causes, node₁⟩ := trip
    have h1 := unionLoop_tag recog hrec alts node [] [] _ _ _ hu
    rw [hu] at h
    simp only [Option.bind_eq_bind, Option.some_bind] at h
    have hn : n' = node₁ := by
      repeat' split at h
      all_goals
        simp only [Option.some.injEq, Prod.mk.injEq] at h
        exact h.2.2.symm
    rw [hn]
    exact h1

theorem recognize_list_tag (recog : RecFn) (node : YNode)
    (itemType : TypeDesc) (s : List TypeDesc) (e : RecErr) (n' : YNode)
    (h : recognize_list recog node itemType = some (s, e, n')) :
    TagStep node.tag n'.tag := by
  unfold recognize_list at h
  cases node with
  | scalar tag v =>
    simp at h
    rw [← h.2.2]
    exact TagStep.refl _
  | sequence tag items =>
    have : ∀ done todo s e n',
        listLoop recog itemType (.tList itemType) tag done todo =
          some (s, e, n') → n'.tag = tag := by
      intro done todo
      induction todo generalizing done with
      | nil =>
        intro s e n' h
        unfold listLoop at h
        simp at h
        rw [← h.2.2]
        rfl
      | cons item rest ih =>
        intro s e n' h
        unfold listLoop at h
        cases hr : recog item itemType with
        | none =>
          rw [hr] at h
          simp at h
        | some trip =>
          obtain ⟨r, result, item'⟩ := trip
          rw [hr] at h
          simp only [Option.bind_eq_bind, Option.some_bind] at h
          by_cases h0 : r.isEmpty = true
          · rw [if_pos h0] at h
            simp only [Option.some.injEq, Prod.mk.injEq] at h
            rw [← h.2.2]
            rfl
          · rw [if_neg h0] at h
            by_cases h1 : r.length > 1
            · rw [if_pos h1] at h
              simp only [Option.some.injEq, Prod.mk.injEq] at h
              rw [← h.2.2]
              rfl
            · rw [if_neg h1] at h
              exact ih (done ++ [item']) s e n' h
    rw [this [] items s e n' h]
    exact TagStep.refl _
  | mapping tag entries =>
    simp at h
    rw [← h.2.2]
    exact TagStep.refl _

theorem recognize_dict_tag (reg : Registry) (recog : RecFn)
    (node : YNode) (keyType valueType : TypeDesc) (s : List TypeDesc)
    (e : RecErr) (n' : YNode)
    (h : recognize_dict reg recog node keyType valueType =
      some (s, e, n')) :
    TagStep node.tag n'.tag := by
  unfold recognize_dict at h
  by_cases hsl : is_string_like reg keyType = true
  · simp only [hsl, Bool.not_true, Bool.false_eq_true, if_false] at h
    cases node with
    | scalar tag v =>
      simp at h
      rw [← h.2.2]
      exact TagStep.refl _
    | sequence tag items =>
      simp at h
      rw [← h.2.2]
      exact TagStep.refl _
    | mapping tag entries =>
      have : ∀ done todo s e n',
          dictLoop recog keyType valueType (.tDict keyType valueType)
            tag done todo = some (s, e, n') → n'.tag = tag := by
        intro done todo
        induction todo generalizing done with
        | nil =>
          intro s e n' h
          unfold dictLoop at h
          simp at h
          rw [← h.2.2]
          rfl
        | cons kv rest ih =>
          obtain ⟨key, value⟩ := kv
          intro s e n' h
          unfold dictLoop at h
          cases hk : recog key keyType with
          | none =>
            rw [hk] at h
            simp at h
          | some ktrip =>
            obtain ⟨rk, kres, key'⟩ := ktrip
            rw [hk] at h
            simp only [Option.bind_eq_bind, Option.some_bind] at h
            by_cases h0 : rk.isEmpty = true
            · rw [if_pos h0] at h
              simp only [Option.some.injEq, Prod.mk.injEq] at h
              rw [← h.2.2]
              rfl
            · rw [if_neg h0] at h
              by_cases h1 : rk.length > 1
              · rw [if_pos h1] at h
                simp only [Option.some.injEq, Prod.mk.injEq] at h
                rw [← h.2.2]
                rfl
              · rw [if_neg h1] at h
                cases hv : recog value valueType with
                | none =>
                  rw [hv] at h
                  simp at h
                | some vtrip =>
                  obtain ⟨rv, vres, value'⟩ := vtrip
                  rw [hv] at h
                  simp only [Option.bind_eq_bind, Option.some_bind] at h
                  by_cases h2 : rv.isEmpty = true
                  · rw [if_pos h2] at h
                    simp only [Option.some.injEq, Prod.mk.injEq] at h
                    rw [← h.2.2]
                    rfl
                  · rw [if_neg h2] at h
                    by_cases h3 : rv.length > 1
                    · rw [if_pos h3] at h
                      simp only [Option.some.injEq, Prod.mk.injEq] at h
                      rw [← h.2.2]
                      rfl
                    · rw [if_neg h3] at h
                      exact ih (done ++ [(key', value')]) s e n' h
      rw [this [] entries s e n' h]
      exact TagStep.refl _
  · simp only [Bool.not_eq_true] at hsl
    rw [hsl] at h
    simp at h

theorem recognize_user_class_tag (recog : RecFn) (reg : Registry)
    (node : YNode) (cname : String) (s : List TypeDesc) (e : RecErr)
    (n' : YNode)
    (h : recognize_user_class recog reg node cname = some (s, e, n')) :
    TagStep node.tag n'.tag := by
  unfold recognize_user_class at h
  cases hci : lookupClass reg cname with
  | none =>
    rw [hci] at h
    simp at h
  | some ci =>
    rw [hci] at h
    simp only [Option.bind_eq_bind, Option.some_bind] at h
    by_cases hhook : ci.hasCustomRecognize = true
    · rw [if_pos hhook] at h
      cases hcr : ci.customRecognize node with
      | none =>
        rw [hcr] at h
        simp only [Option.some.injEq, Prod.mk.injEq] at h
        rw [← h.2.2]
        exact TagStep.refl _
      | some m =>
        rw [hcr] at h
        simp only [Option.some.injEq, Prod.mk.injEq] at h
        rw [← h.2.2]
        exact TagStep.refl _
    · rw [if_neg hhook] at h
      by_cases henum : ci.isEnum = true
      · rw [henum] at h
        simp only [if_true] at h
        cases node with
        | scalar tag v =>
          dsimp only at h
          by_cases hst : (tag == "tag:yaml.org,2002:str"
              || tag == "tag:yaml.org,2002:bool") = true
          · rw [if_pos hst] at h
            simp only [Option.some.injEq, Prod.mk.injEq] at h
            rw [← h.2.2]
            rcases Bool.or_eq_true _ _ |>.mp hst with hx | hx
            · exact Or.inl ((beq_iff_eq).mp hx).symm
            · exact Or.inr ⟨(beq_iff_eq).mp hx, rfl⟩
          · rw [if_neg hst] at h
            simp only [Option.some.injEq, Prod.mk.injEq] at h
            rw [← h.2.2]
            exact TagStep.refl _
        | sequence tag items =>
          simp only [Option.some.injEq, Prod.mk.injEq] at h
          rw [← h.2.2]
          exact TagStep.refl _
        | mapping tag entries =>
          simp only [Option.some.injEq, Prod.mk.injEq] at h
          rw [← h.2.2]
          exact TagStep.refl _
      · have henum' : ci.isEnum = false := by simpa using henum
        rw [henum'] at h
        simp only [Bool.false_eq_true, if_false] at h
        by_cases hsl : ci.isStringLike = true
        · rw [if_pos hsl] at h
          cases node with
          | scalar tag v =>
            dsimp only at h
            split at h <;>
              (simp only [Option.some.injEq, Prod.mk.injEq] at h;
               rw [← h.2.2];
               exact TagStep.refl _)
          | sequence tag items =>
            simp only [Option.some.injEq, Prod.mk.injEq] at h
            rw [← h.2.2]
            exact TagStep.refl _
          | mapping tag entries =>
            simp only [Option.some.injEq, Prod.mk.injEq] at h
            rw [← h.2.2]
            exact TagStep.refl _
        · rw [if_neg hsl] at h
          cases node with
          | scalar tag v =>
            simp only [Option.some.injEq, Prod.mk.injEq] at h
            rw [← h.2.2]
            exact TagStep.refl _
          | sequence tag items =>
            simp only [Option.some.injEq, Prod.mk.injEq] at h
            rw [← h.2.2]
            exact TagStep.refl _
          | mapping tag entries =>
            have : ∀ attrs entries' s e n',
                attrLoop recog ci tag attrs entries' = some (s, e, n') →
                n'.tag = tag := by
              intro attrs
              induction attrs with
              | nil =>
                intro entries' s e n' h
                unfold attrLoop at h
                simp at h
                rw [← h.2.2]
                rfl
              | cons a rest ih =>
                obtain ⟨attrName, attrType, required⟩ := a
                intro entries' s e n' h
                unfold attrLoop at h
                dsimp only at h
                split at h
                case h_1 name hfound =>
                  cases hget : (get_attribute (.mapping tag entries')
                      name).toOption with
                  | none =>
                    rw [hget] at h
                    simp at h
                  | some subnode =>
                    rw [hget] at h
                    simp only [Option.bind_eq_bind, Option.some_bind]
                      at h
                    cases hr : recog subnode attrType with
                    | none =>
                      rw [hr] at h
                      simp at h
                    | some trip =>
                      obtain ⟨r, result, sub'⟩ := trip
                      rw [hr] at h
                      simp only [Option.bind_eq_bind,
                        Option.some_bind] at h
                      by_cases h0 : r.isEmpty = true
                      · rw [if_pos h0] at h
                        simp only [Option.some.injEq, Prod.mk.injEq]
                          at h
                        rw [← h.2.2]
                        rfl
                      · rw [if_neg h0] at h
                        exact ih _ s e n' h
                case h_2 hfound =>
                  by_cases hreq : required = true
                  · rw [if_pos hreq] at h
                    simp only [Option.some.injEq, Prod.mk.injEq] at h
                    rw [← h.2.2]
                    rfl
                  · rw [if_neg hreq] at h
                    exact ih _ s e n' h
            rw [this ci.attrs entries s e n' h]
            exact TagStep.refl _

theorem collectLoop_tag (recUC : UCFn) (hrec : TagStepsUC recUC)
    (cname : String) (scan : List ClassInfo) :
    ∀ node acc causes s cs n',
      collectLoop recUC scan cname node acc causes = some (s, cs, n') →
      TagStep node.tag n'.tag := by
  induction scan with
  | nil =>
    intro node acc causes s cs n' h
    unfold collectLoop at h
    simp at h
    rw [← h.2.2]
    exact TagStep.refl _
  | cons ci rest ih =>
    intro node acc causes s cs n' h
    unfold collectLoop at h
    by_cases hb : ci.bases.contains cname = true
    · rw [if_pos hb] at h
      cases hr : recUC node ci.name false with
      | none =>
        rw [hr] at h
        simp at h
      | some trip =>
        obtain ⟨r, result, node₁⟩ := trip
        rw [hr] at h
        simp only [Option.bind_eq_bind, Option.some_bind] at h
        exact (hrec node ci.name false r result node₁ hr).trans
          (ih node₁ _ _ _ _ _ h)
    · rw [if_neg hb] at h
      exact ih node _ _ _ _ _ h

/-- The whole recognizer recursion only ever keeps the top node's tag or
rewrites a `bool` tag to `str`. -/
theorem recFuel_tag (reg : Registry) :
    ∀ fuel inp s e n', recFuel reg fuel inp = some (s, e, n') →
      TagStep inp.node.tag n'.tag := by
  intro fuel
  induction fuel with
  | zero =>
    intro inp s e n' h
    simp [recFuel] at h
  | succ f ih =>
    have hrec : TagSteps (fun n t => recFuel reg f (.ty n t)) := by
      intro n t s e n' h
      exact ih (.ty n t) s e n' h
    have hrecUC : TagStepsUC
        (fun n c top => recFuel reg f (.uc n c top)) := by
      intro n c top s e n' h
      exact ih (.uc n c top) s e n' h
    intro inp s e n' h
    cases inp with
    | uc node cname top =>
      rw [recFuel_uc_succ] at h
      unfold recognize_user_classes at h
      cases hcol : collectLoop (fun n c t => recFuel reg f (.uc n c t))
          reg cname node [] [] with
      | none =>
        rw [hcol] at h
        simp at h
      | some ctrip =>
        obtain ⟨subs, causes, n₁⟩ := ctrip
        have h1 : TagStep node.tag n₁.tag :=
          collectLoop_tag _ hrecUC cname reg node [] [] _ _ _ hcol
        rw [hcol] at h
        simp only [Option.bind_eq_bind, Option.some_bind] at h
        unfold leafStep at h
        by_cases h0 : subs.isEmpty = true
        · rw [if_pos h0] at h
          by_cases habs : is_abstract reg cname = true
          · rw [habs] at h
            simp only [Bool.not_true, Bool.false_eq_true, if_false,
              Option.some_bind, Option.some.injEq, Prod.mk.injEq] at h
            rw [← h.2.2]
            exact h1
          · have habs' : is_abstract reg cname = false := by
              simpa using habs
            rw [habs'] at h
            simp only [Bool.not_false, if_true] at h
            cases hl : recognize_user_class
                (fun n t => recFuel reg f (.ty n t)) reg n₁ cname with
            | none =>
              rw [hl] at h
              simp at h
            | some ltrip =>
              obtain ⟨r, result, n₂⟩ := ltrip
              have h2 : TagStep n₁.tag n₂.tag :=
                recognize_user_class_tag _ reg n₁ cname _ _ _ hl
              rw [hl] at h
              simp only [Option.bind_eq_bind, Option.some_bind,
                Option.some.injEq, Prod.mk.injEq] at h
              rw [← h.2.2]
              exact h1.trans h2
        · rw [if_neg h0] at h
          simp only [Option.some_bind, Option.some.injEq,
            Prod.mk.injEq] at h
          rw [← h.2.2]
          exact h1
    | ty node expected =>
      by_cases hsc : isScalarType expected = true
      · have hstep : recFuel reg (f + 1) (.ty node expected) =
            some (recognize_scalar node expected) := by
          unfold recFuel
          rw [hsc]
          simp
        rw [hstep] at h
        have hp := recognize_scalar_preserves node expected
        cases hr : recognize_scalar node expected with
        | mk a bc =>
          rw [hr] at h hp
          obtain ⟨b, c⟩ := bc
          simp only [Option.some.injEq, Prod.mk.injEq] at h
          have hp' : c = node := hp
          rw [← h.2.2, hp']
          exact TagStep.refl _
      · have hsc' : isScalarType expected = false := by simpa using hsc
        cases expected with
        | tUnion alts =>
          exact recognize_union_tag _ hrec node alts s e n'
            (by rw [← h]; rfl)
        | tList item =>
          exact recognize_list_tag _ node item s e n'
            (by rw [← h]; rfl)
        | tDict k v =>
          exact recognize_dict_tag reg _ node k v s e n'
            (by rw [← h]; rfl)
        | tClass c =>
          have hstep : recFuel reg (f + 1) (.ty node (.tClass c)) =
              (if isRegistered reg c = true then
                recFuel reg f (.uc node c true) else none) := rfl
          rw [hstep] at h
          by_cases hr : isRegistered reg c = true
          · rw [if_pos hr] at h
            exact ih (.uc node c true) s e n' h
          · rw [if_neg hr] at h
            simp at h
        | tAny =>
          have hstep : recFuel reg (f + 1) (.ty node .tAny) =
              some ([.tAny], RecErr.ok, node) := rfl
          rw [hstep] at h
          simp only [Option.some.injEq, Prod.mk.injEq] at h
          rw [← h.2.2]
          exact TagStep.refl _
        | tStr => simp [isScalarType, scalar_type_to_tag] at hsc'
        | tInt => simp [isScalarType, scalar_type_to_tag] at hsc'
        | tFloat => simp [isScalarType, scalar_type_to_tag] at hsc'
        | tBool => simp [isScalarType, scalar_type_to_tag] at hsc'
        | tBoolUnionFix => simp [isScalarType, scalar_type_to_tag] at hsc'
        | tNull => simp [isScalarType, scalar_type_to_tag] at hsc'
        | tDate => simp [isScalarType, scalar_type_to_tag] at hsc'

/-- A `TagStep` from a non-standard tag goes nowhere: the `bool`-to-
`str` rewrite only applies to the (standard) bool tag. -/
theorem tagStep_nonstd {a b : String} (h : TagStep a b)
    (hn : strStartsWith a "tag:yaml.org,2002" = false) : b = a := by
  rcases h with h | ⟨h1, h2⟩
  · exact h
  · rw [h1] at hn
    exact absurd hn (by decide)

/-- The shape results can take on a node carrying a non-standard tag:
empty, or — when the tag names the registered class `y` — exactly that
class. -/
def TagCands (yopt : Option String) (s : List TypeDesc) : Prop :=
  match yopt with
  | some y => s = [] ∨ s = [.tClass y]
  | none => s = []

/-- `TagCands` is closed under the recognizer's set union. -/
theorem tagCands_union {yopt : Option String} {a r : List TypeDesc}
    (ha : TagCands yopt a) (hr : TagCands yopt r) :
    TagCands yopt (tdUnion a r) := by
  cases yopt with
  | none =>
    unfold TagCands at *
    subst ha
    subst hr
    rfl
  | some y =>
    unfold TagCands at *
    rcases ha with ha | ha <;> rcases hr with hr | hr <;>
      subst ha <;> subst hr
    · exact Or.inl rfl
    · exact Or.inr rfl
    · exact Or.inr rfl
    · right
      show tdUnion [TypeDesc.tClass y] [TypeDesc.tClass y] = _
      unfold tdUnion
      simp only [List.foldl_cons, List.foldl_nil]
      unfold tdInsert
      rw [if_pos (tdContains_of_mem (List.mem_singleton_self _))]

/-- The attribute loop returns the empty set or the singleton of the
class being recognized. -/
theorem attrLoop_shape (recog : RecFn) (ci : ClassInfo) (mtag : String)
    (attrs : List (String × TypeDesc × Bool)) :
    ∀ entries s e n',
      attrLoop recog ci mtag attrs entries = some (s, e, n') →
      s = [] ∨ s = [.tClass ci.name] := by
  induction attrs with
  | nil =>
    intro entries s e n' h
    unfold attrLoop at h
    simp at h
    exact Or.inr h.1.symm
  | cons a rest ih =>
    obtain ⟨attrName, attrType, required⟩ := a
    intro entries s e n' h
    unfold attrLoop at h
    dsimp only at h
    split at h
    case h_1 name hfound =>
      cases hget : (get_attribute (.mapping mtag entries)
          name).toOption with
      | none =>
        rw [hget] at h
        simp at h
      | some subnode =>
        rw [hget] at h
        simp only [Option.bind_eq_bind, Option.some_bind] at h
        cases hr : recog subnode attrType with
        | none =>
          rw [hr] at h
          simp at h
        | some trip =>
          obtain ⟨r, result, sub'⟩ := trip
          rw [hr] at h
          simp only [Option.bind_eq_bind, Option.some_bind] at h
          by_cases h0 : r.isEmpty = true
          · rw [if_pos h0] at h
            simp only [Option.some.injEq, Prod.mk.injEq] at h
            exact Or.inl h.1.symm
          · rw [if_neg h0] at h
            exact ih _ s e n' h
    case h_2 hfound =>
      by_cases hreq : required = true
      · rw [if_pos hreq] at h
        simp only [Option.some.injEq, Prod.mk.injEq] at h
        exact Or.inl h.1.symm
      · rw [if_neg hreq] at h
        exact ih _ s e n' h

/-- Leaf user-class recognition returns the empty set or the singleton
of the looked-up class. -/
theorem recognize_user_class_shape (recog : RecFn) (reg : Registry)
    (node : YNode) (cname : String) (s : List TypeDesc) (e : RecErr)
    (n' : YNode)
    (h : recognize_user_class recog reg node cname = some (s, e, n')) :
    s = [] ∨ ∃ ci, lookupClass reg cname = some ci ∧
      s = [.tClass ci.name] := by
  unfold recognize_user_class at h
  cases hci : lookupClass reg cname with
  | none =>
    rw [hci] at h
    simp at h
  | some ci =>
    rw [hci] at h
    simp only [Option.bind_eq_bind, Option.some_bind] at h
    by_cases hhook : ci.hasCustomRecognize = true
    · rw [if_pos hhook] at h
      cases hcr : ci.customRecognize node with
      | none =>
        rw [hcr] at h
        simp only [Option.some.injEq, Prod.mk.injEq] at h
        exact Or.inr ⟨ci, rfl, h.1.symm⟩
      | some m =>
        rw [hcr] at h
        simp only [Option.some.injEq, Prod.mk.injEq] at h
        exact Or.inl h.1.symm
    · rw [if_neg hhook] at h
      by_cases henum : ci.isEnum = true
      · rw [henum] at h
        simp only [if_true] at h
        cases node with
        | scalar tag v =>
          dsimp only at h
          split at h <;>
            simp only [Option.some.injEq, Prod.mk.injEq] at h
          · exact Or.inr ⟨ci, rfl, h.1.symm⟩
          · exact Or.inl h.1.symm
        | sequence tag items =>
          simp only [Option.some.injEq, Prod.mk.injEq] at h
          exact Or.inl h.1.symm
        | mapping tag entries =>
          simp only [Option.some.injEq, Prod.mk.injEq] at h
          exact Or.inl h.1.symm
      · have henum' : ci.isEnum = false := by simpa using henum
        rw [henum'] at h
        simp only [Bool.false_eq_true, if_false] at h
        by_cases hsl : ci.isStringLike = true
        · rw [if_pos hsl] at h
          cases node with
          | scalar tag v =>
            dsimp only at h
            split at h <;>
              simp only [Option.some.injEq, Prod.mk.injEq] at h
            · exact Or.inr ⟨ci, rfl, h.1.symm⟩
            · exact Or.inl h.1.symm
          | sequence tag items =>
            simp only [Option.some.injEq, Prod.mk.injEq] at h
            exact Or.inl h.1.symm
          | mapping tag entries =>
            simp only [Option.some.injEq, Prod.mk.injEq] at h
            exact Or.inl h.1.symm
        · rw [if_neg hsl] at h
          cases node with
          | scalar tag v =>
            simp only [Option.some.injEq, Prod.mk.injEq] at h
            exact Or.inl h.1.symm
          | sequence tag items =>
            simp only [Option.some.injEq, Prod.mk.injEq] at h
            exact Or.inl h.1.symm
          | mapping tag entries =>
            rcases attrLoop_shape recog ci tag ci.attrs entries s e n' h
              with hs | hs
            · exact Or.inl hs
            · exact Or.inr ⟨ci, rfl, hs⟩

/-- The subclass-collection loop keeps the `TagCands` shape and the
(non-standard) tag, given that each recursive call does. -/
theorem collectLoop_tagCands (recUC : UCFn) (cname T : String)
    (yopt : Option String)
    (hcall : ∀ n c s e n'', n.tag = T →
      recUC n c false = some (s, e, n'') →
      TagCands yopt s ∧ n''.tag = T)
    (scan : List ClassInfo) :
    ∀ node acc causes s cs n', node.tag = T → TagCands yopt acc →
      collectLoop recUC scan cname node acc causes = some (s, cs, n') →
      TagCands yopt s ∧ n'.tag = T := by
  induction scan with
  | nil =>
    intro node acc causes s cs n' htag hacc h
    unfold collectLoop at h
    simp at h
    rw [← h.1, ← h.2.2]
    exact ⟨hacc, htag⟩
  | cons ci rest ih =>
    intro node acc causes s cs n' htag hacc h
    unfold collectLoop at h
    by_cases hb : ci.bases.contains cname = true
    · rw [if_pos hb] at h
      cases hr : recUC node ci.name false with
      | none =>
        rw [hr] at h
        simp at h
      | some trip =>
        obtain ⟨r, result, node₁⟩ := trip
        rw [hr] at h
        simp only [Option.bind_eq_bind, Option.some_bind] at h
        obtain ⟨hrc, htag₁⟩ := hcall node ci.name r result node₁ htag hr
        exact ih node₁ _ _ _ _ _ htag₁ (tagCands_union hacc hrc) h
    · rw [if_neg hb] at h
      exact ih node _ _ _ _ _ htag hacc h

/-- Candidate resolution on a node with a non-standard tag, for a
candidate set of at most one element: the result is empty with an error
message, or exactly the class the tag names, with no error. -/
theorem resolveCandidates_nonstd (reg : Registry) (n₂ : YNode)
    (cname : String) (cands : List TypeDesc) (causes : List RecErr)
    (hn : strStartsWith n₂.tag "tag:yaml.org,2002" = false)
    (hlen : cands = [] ∨ ∃ x, cands = [x]) :
    (match tagToClass reg n₂.tag with
     | some ci =>
       ((resolveCandidates reg n₂ cname cands causes).1 = [] ∧
         (resolveCandidates reg n₂ cname cands causes).2.msg ≠ "") ∨
       ((resolveCandidates reg n₂ cname cands causes).1 =
          [.tClass ci.name] ∧
         (resolveCandidates reg n₂ cname cands causes).2 = RecErr.ok)
     | none =>
       (resolveCandidates reg n₂ cname cands causes).1 = [] ∧
       (resolveCandidates reg n₂ cname cands causes).2.msg ≠ "") := by
  rcases hlen with hc | ⟨x, hc⟩
  · subst hc
    have hres : resolveCandidates reg n₂ cname [] causes =
        ([], .mk ("Failed to recognize " ++ type_to_desc (.tClass cname))
          causes) := by
      unfold resolveCandidates
      simp
    cases htc : tagToClass reg n₂.tag with
    | some ci =>
      refine Or.inl ⟨by rw [hres], ?_⟩
      rw [hres]
      exact append_ne_empty_of_left "Failed to recognize " _ (by decide)
    | none =>
      refine ⟨by rw [hres], ?_⟩
      rw [hres]
      exact append_ne_empty_of_left "Failed to recognize " _ (by decide)
  · subst hc
    have hres : resolveCandidates reg n₂ cname [x] causes =
        (if !(strStartsWith n₂.tag "tag:yaml.org,2002") then
          match tagToClass reg n₂.tag with
          | some tagged =>
            if !tdContains [x] (.tClass tagged.name) then
              ([], .mk ("Expected a " ++ cname ++ " and found it, but"
                ++ " there's a tag here claiming this is a(n) "
                ++ tagged.name ++ ". That makes no sense.") [])
            else ([x], RecErr.ok)
          | none =>
            ([], .mk ("Expected a " ++ cname ++ " and found it, but"
              ++ " there's a tag here claiming this is a(n) "
              ++ n₂.tag.drop 1 ++ ", which type I don't know.") [])
        else ([x], RecErr.ok)) := by
      unfold resolveCandidates
      simp
    rw [hn] at hres
    simp only [Bool.not_false, if_true] at hres
    cases htc : tagToClass reg n₂.tag with
    | some tagged =>
      rw [htc] at hres
      dsimp only at hres
      by_cases hcont : tdContains [x] (.tClass tagged.name) = true
      · have hx : x = .tClass tagged.name := by
          unfold tdContains at hcont
          simp only [List.any_cons, List.any_nil, Bool.or_false] at hcont
          exact mem_of_tdBeq_tClass hcont
        rw [hcont] at hres
        simp only [Bool.not_true, Bool.false_eq_true, if_false] at hres
        exact Or.inr ⟨by rw [hres, hx], by rw [hres]⟩
      · simp only [Bool.not_eq_true] at hcont
        rw [hcont] at hres
        simp only [Bool.not_false, if_true] at hres
        refine Or.inl ⟨by rw [hres], ?_⟩
        rw [hres]
        exact append_ne_empty_of_left "Expected a " _ (by decide)
    | none =>
      rw [htc] at hres
      refine ⟨by rw [hres], ?_⟩
      rw [hres]
      exact append_ne_empty_of_left "Expected a " _ (by decide)

/-- The empty candidate set satisfies `TagCands`. -/
theorem tagCands_nil (yopt : Option String) : TagCands yopt [] := by
  cases yopt with
  | none => rfl
  | some y => exact Or.inl rfl

/-- A `TagCands` set has at most one element. -/
theorem tagCands_len {yopt : Option String} {s : List TypeDesc}
    (h : TagCands yopt s) : s = [] ∨ ∃ x, s = [x] := by
  cases yopt with
  | none => exact Or.inl h
  | some y =>
    rcases h with h | h
    · exact Or.inl h
    · exact Or.inr ⟨_, h⟩

/-- Class recognition of a node carrying a non-standard tag: if the tag
names a registered class, the result is the empty set with an error or
exactly that class with no error; if the tag names no registered class,
the result is always the empty set with an error. -/
theorem recFuel_classTag (reg : Registry) :
    ∀ fuel node cname top s e n',
      recFuel reg fuel (.uc node cname top) = some (s, e, n') →
      strStartsWith node.tag "tag:yaml.org,2002" = false →
      (match tagToClass reg node.tag with
       | some ci => (s = [] ∧ e.msg ≠ "") ∨
           (s = [.tClass ci.name] ∧ e = RecErr.ok)
       | none => s = [] ∧ e.msg ≠ "") := by
  intro fuel
  induction fuel with
  | zero =>
    intro node cname top s e n' h _
    simp [recFuel] at h
  | succ f ih =>
    intro node cname top s e n' h hn
    rw [recFuel_uc_succ] at h
    unfold recognize_user_classes at h
    cases hcol : collectLoop (fun n c t => recFuel reg f (.uc n c t))
        reg cname node [] [] with
    | none =>
      rw [hcol] at h
      simp at h
    | some ctrip =>
      obtain ⟨subs, causes, n₁⟩ := ctrip
      have hcall : ∀ n c s₀ e₀ n'', n.tag = node.tag →
          (fun n c t => recFuel reg f (.uc n c t)) n c false =
            some (s₀, e₀, n'') →
          TagCands ((tagToClass reg node.tag).map ClassInfo.name) s₀ ∧
            n''.tag = node.tag := by
        intro n c s₀ e₀ n'' htag hr
        constructor
        · have hin := ih n c false s₀ e₀ n'' hr (by rw [htag]; exact hn)
          rw [htag] at hin
          unfold TagCands
          cases htc : tagToClass reg node.tag with
          | some ci =>
            rw [htc] at hin
            simp only [Option.map_some']
            rcases hin with ⟨h1, _⟩ | ⟨h1, _⟩
            · exact Or.inl h1
            · exact Or.inr h1
          | none =>
            rw [htc] at hin
            simp only [Option.map_none']
            exact hin.1
        · have hts := recFuel_tag reg f (.uc n c false) s₀ e₀ n'' hr
          have hnn : n''.tag = n.tag :=
            tagStep_nonstd hts
              (by show strStartsWith n.tag _ = false
                  rw [htag]; exact hn)
          rw [hnn, htag]
      obtain ⟨hsubs, htag₁⟩ := collectLoop_tagCands _ cname node.tag
        ((tagToClass reg node.tag).map ClassInfo.name) hcall reg node
        [] [] subs causes n₁ rfl (tagCands_nil _) hcol
      rw [hcol] at h
      simp only [Option.bind_eq_bind, Option.some_bind] at h
      unfold leafStep at h
      by_cases h0 : subs.isEmpty = true
      · rw [if_pos h0] at h
        have hsubs_nil : subs = [] := by simpa using h0
        by_cases habs : is_abstract reg cname = true
        · rw [habs] at h
          simp only [Bool.not_true, Bool.false_eq_true, if_false,
            Option.some_bind, Option.some.injEq, Prod.mk.injEq] at h
          have hres := resolveCandidates_nonstd reg n₁ cname subs causes
            (by rw [htag₁]; exact hn) (Or.inl hsubs_nil)
          rw [htag₁] at hres
          rw [h.1, h.2.1] at hres
          exact hres
        · have habs' : is_abstract reg cname = false := by
            simpa using habs
          rw [habs'] at h
          simp only [Bool.not_false, if_true] at h
          cases hl : recognize_user_class
              (fun n t => recFuel reg f (.ty n t)) reg n₁ cname with
          | none =>
            rw [hl] at h
            simp at h
          | some ltrip =>
            obtain ⟨r, result, n₂⟩ := ltrip
            have hlen : r = [] ∨ ∃ x, r = [x] := by
              rcases recognize_user_class_shape _ reg n₁ cname r result
                  n₂ hl with hr | ⟨ci, _, hr⟩
              · exact Or.inl hr
              · exact Or.inr ⟨_, hr⟩
            have htag₂ : n₂.tag = node.tag := by
              have hts := recognize_user_class_tag _ reg n₁ cname r
                result n₂ hl
              have := tagStep_nonstd hts (by rw [htag₁]; exact hn)
              rw [this, htag₁]
            rw [hl] at h
            simp only [Option.bind_eq_bind, Option.some_bind,
              Option.some.injEq, Prod.mk.injEq] at h
            have hres := resolveCandidates_nonstd reg n₂ cname r
              (if r.isEmpty = true then causes ++ [result] else causes)
              (by rw [htag₂]; exact hn) hlen
            rw [htag₂] at hres
            rw [h.1, h.2.1] at hres
            exact hres
      · rw [if_neg h0] at h
        simp only [Option.some_bind, Option.some.injEq,
          Prod.mk.injEq] at h
        have hlen := tagCands_len hsubs
        have hres := resolveCandidates_nonstd reg n₁ cname subs causes
          (by rw [htag₁]; exact hn) hlen
        rw [htag₁] at hres
        rw [h.1, h.2.1] at hres
        exact hres

/-- A registry for exercising tag resolution: a plain parent class `P`
and three always-structurally-distinct subclasses — `A` and `B` accept
any node through their recognition hooks, `X` always rejects. -/
def regC4 : Registry :=
  [plainClass "P" [] [], hookClass "A" ["P"] noHook,
   hookClass "B" ["P"] noHook,
   hookClass "X" ["P"] (fun _ => some "Not an X")]

/-- C4: In class recognition, a non-standard tag on the node pins the
result: if the tag names a registered class the result is either the
empty set with an error or exactly the tagged class with no error, and
if it names no registered class the result is always the empty set with
an error — the tag never silently overrides the structural result
(first conjunct, for every registry, node and expected class).
Concretely (remaining conjuncts): with `P` and its subclasses `A`, `B`
(always match) and `X` (never matches), an untagged mapping is
structurally ambiguous between `A` and `B`; tagging it `!A` resolves the
tie to exactly `A` with no error; tagging it `!X` (a registered class
not among the candidates) or `!Q` (unknown) yields the empty set with an
error. -/
theorem c4_explicit_tag_resolution :
    (∀ (reg : Registry) (fuel : Nat) (node : YNode) (cname : String)
        (top : Bool) (s : List TypeDesc) (e : RecErr) (n' : YNode),
      recognizeUC reg fuel node cname top = some (s, e, n') →
      strStartsWith node.tag "tag:yaml.org,2002" = false →
      (match tagToClass reg node.tag with
       | some ci => (s = [] ∧ e.msg ≠ "") ∨
           (s = [.tClass ci.name] ∧ e = RecErr.ok)
       | none => s = [] ∧ e.msg ≠ "")) ∧
    recognize regC4 10 (.mapping mapTag []) (.tClass "P") =
      some ([.tClass "A", .tClass "B"],
        .mk ("Could not determine which of the following types this is:"
          ++ " a(n) A or a(n) B")
          [.mk "Failed to recognize a(n) X" [.mk "Not an X" []]],
        .mapping mapTag []) ∧
    recognize regC4 10 (.mapping "!A" []) (.tClass "P") =
      some ([.tClass "A"], RecErr.ok, .mapping "!A" []) ∧
    recognize regC4 10 (.mapping "!X" []) (.tClass "P") =
      some ([], .mk ("Expected a P and found it, but there's a tag here"
        ++ " claiming this is a(n) X. That makes no sense.") [],
        .mapping "!X" []) ∧
    recognize regC4 10 (.mapping "!Q" []) (.tClass "P") =
      some ([], .mk ("Expected a P and found it, but there's a tag here"
        ++ " claiming this is a(n) Q, which type I don't know.") [],
        .mapping "!Q" []) := by
  refine ⟨?_, rfl, rfl, rfl, rfl⟩
  intro reg fuel node cname top s e n' h hn
  exact recFuel_classTag reg fuel node cname top s e n' h hn

theorem c4_explicit_tag_resolution_witness :
    (match tagToClass regC4 (YNode.mapping "!A" []).tag with
     | some ci => ([TypeDesc.tClass "A"] = ([] : List TypeDesc) ∧
           RecErr.ok.msg ≠ "") ∨
         ([TypeDesc.tClass "A"] = [TypeDesc.tClass ci.name] ∧
           RecErr.ok = RecErr.ok)
     | none => [TypeDesc.tClass "A"] = ([] : List TypeDesc) ∧
         RecErr.ok.msg ≠ "") :=
  c4_explicit_tag_resolution.1 regC4 10 (.mapping "!A" []) "P" true
    [.tClass "A"] RecErr.ok (.mapping "!A" []) (by rfl) (by rfl)

/-- A class with required attribute `a` and an overflow slot spelled
`yatiml_extra`, the name `constructors.py` looks for. -/
def specExtA : CtorSpec :=
  ⟨"Extensible", ["self", "a", "yatiml_extra"], [("a", .tInt)], 0⟩

/-- The same class with the overflow slot spelled `_yatiml_extra`, the
name `introspection.class_subobjects` skips. -/
def specExtB : CtorSpec :=
  ⟨"Extensible", ["self", "a", "_yatiml_extra"], [("a", .tInt)], 0⟩

/-- The mapping node `{a: <!Keep {}>, b: <!Evil {}>, c: 42}` for the
overflow-construction scenario. -/
def nodeC7 : YNode :=
  .mapping mapTag
    [(.scalar strTag "a", .mapping "!Keep" []),
     (.scalar strTag "b", .mapping "!Evil" []),
     (.scalar strTag "c", .scalar intTag "42")]

/-- The constructed subobjects of `nodeC7`, with plain values. -/
def mapC7 : List (String × CVal) :=
  [("a", .vInt 10), ("b", .vStr "x"), ("c", .vInt 42)]

/-- C7 diverges from the code: the two halves of the overflow machinery
disagree on the slot's name, so overflow construction always fails.
`Constructor.__split_off_extra_attributes` and
`Constructor.__strip_extra_attributes` do behave as claimed in
isolation (first two conjuncts: undeclared keys `b`, `c` are collected
in original order under the slot, and only subtrees under undeclared
keys have their mapping tags stripped — `!Evil` under `b` becomes a
plain map while `!Keep` under the declared `a` survives).  But
`constructors.py` names the slot `yatiml_extra` while
`introspection.class_subobjects` skips `_yatiml_extra`: a class
declaring `yatiml_extra` makes the slot itself a required attribute, so
`__check_no_missing_attributes` raises `Missing attribute yatiml_extra`
on every mapping (third conjunct); a class declaring `_yatiml_extra` is
not seen as having the slot by `__type_check_attributes`, so any extra
key raises `Found additional attributes` (fourth conjunct).  Omitting
the required `a` does raise a missing-attribute error naming `a` (final
conjunct). -/
theorem c7_overflow_slot_bug :
    split_off_extra_attributes mapC7 ["self", "a", "yatiml_extra"] =
      [("a", .vInt 10),
       ("yatiml_extra", .vDict [("b", .vStr "x"), ("c", .vInt 42)])] ∧
    strip_extra_attributes nodeC7 ["self", "a", "yatiml_extra"] =
      .ok (.mapping mapTag
        [(.scalar strTag "a", .mapping "!Keep" []),
         (.scalar strTag "b", .mapping mapTag []),
         (.scalar strTag "c", .scalar intTag "42")]) ∧
    constructor_call_checks specExtA nodeC7 mapC7 =
      .error "Missing attribute yatiml_extra needed for constructing a Extensible" ∧
    constructor_call_checks specExtB nodeC7 mapC7 =
      .error "Found additional attributes and Extensible does not support those" ∧
    check_no_missing_attributes specExtA [("b", .vStr "x"), ("c", .vInt 42)] =
      some "Missing attribute a needed for constructing a Extensible" :=
  ⟨rfl, rfl, rfl, rfl, rfl⟩

/-- An element of a descending insertion is the inserted element or one
of the originals. -/
theorem insertDesc_mem {x y : Nat × Nat × String} :
    ∀ {l : List (Nat × Nat × String)}, y ∈ insertDesc x l →
      y = x ∨ y ∈ l := by
  intro l
  induction l with
  | nil =>
    intro h
    unfold insertDesc at h
    simp at h
    exact Or.inl h
  | cons z zs ih =>
    intro h
    unfold insertDesc at h
    by_cases hs : scoreGt x z = true
    · rw [if_pos hs] at h
      rcases List.mem_cons.mp h with h | h
      · exact Or.inl h
      · exact Or.inr h
    · rw [if_neg hs] at h
      rcases List.mem_cons.mp h with h | h
      · exact Or.inr (h ▸ List.mem_cons_self z zs)
      · rcases ih h with h | h
        · exact Or.inl h
        · exact Or.inr (List.mem_cons_of_mem z h)

/-- An element of the insertion-sort fold is in the initial accumulator
or in the scored list. -/
theorem foldl_insertDesc_mem {y : Nat × Nat × String} :
    ∀ (l init : List (Nat × Nat × String)),
      y ∈ l.foldl (fun acc p => insertDesc p acc) init →
      y ∈ init ∨ y ∈ l := by
  intro l
  induction l with
  | nil =>
    intro init h
    exact Or.inl h
  | cons p ps ih =>
    intro init h
    rcases ih (insertDesc p init) h with h | h
    · rcases insertDesc_mem h with h | h
      · exact Or.inr (h ▸ List.mem_cons_self p ps)
      · exact Or.inl h
    · exact Or.inr (List.mem_cons_of_mem p h)

/-- Every suggestion of `difflib.get_close_matches` is one of the given
possibilities. -/
theorem get_close_matches_subset (word : String)
    (poss : List String) (s : String)
    (h : s ∈ get_close_matches word poss) : s ∈ poss := by
  unfold get_close_matches at h
  obtain ⟨p, hp, hps⟩ := List.mem_map.mp h
  have hp2 := List.take_subset 3 _ hp
  rcases foldl_insertDesc_mem _ [] hp2 with hnil | hsc
  · simp at hnil
  · obtain ⟨x, hx, hfx⟩ := List.mem_filterMap.mp hsc
    by_cases hc : 10 * seqMatchSize x word ≥ 3 * (x.length + word.length)
    · rw [if_pos hc] at hfx
      have : p = (seqMatchSize x word, x.length + word.length, x) :=
        (Option.some.injEq _ _).mp hfx.symm
      rw [this] at hps
      rw [← hps]
      exact hx
    · rw [if_neg hc] at hfx
      exact absurd hfx (by simp)

/-- The missing-or-mistyped loop of
`Constructor.__check_no_missing_attributes`: if every attribute present
in the mapping matches its declared type, and some required attribute is
not a key of the mapping, the loop reports a missing attribute — one
that is indeed declared required and absent. -/
theorem checkMissingLoop_missing (className : String)
    (mapping : List (String × CVal)) :
    ∀ l : List (String × TypeDesc × Bool),
      l.all (fun x =>
        match lookupV mapping x.1 with
        | some v => type_matches v x.2.1
        | none => true) = true →
      l.any (fun x => x.2.2 && !(mapKeys mapping).contains x.1) = true →
      ∃ n, checkMissingLoop className mapping l =
          some ("Missing attribute " ++ n
            ++ " needed for constructing a " ++ className) ∧
        l.any (fun x => x.1 == n && x.2.2
          && !(mapKeys mapping).contains x.1) = true := by
  intro l
  induction l with
  | nil =>
    intro _ hany
    simp at hany
  | cons hd rest ih =>
    obtain ⟨name, t, req⟩ := hd
    intro hall hany
    rw [List.all_cons] at hall
    rw [List.any_cons] at hany
    rw [Bool.and_eq_true] at hall
    unfold checkMissingLoop
    by_cases hcond : (req && !(mapKeys mapping).contains name) = true
    · refine ⟨name, by rw [if_pos hcond], ?_⟩
      rw [List.any_cons]
      simp only [beq_self_eq_true, Bool.true_and, hcond, Bool.true_or]
    · rw [if_neg hcond]
      have hcond' : (req && !(mapKeys mapping).contains name) = false :=
        Bool.not_eq_true _ ▸ eq_false_of_ne_true hcond
      rw [hcond', Bool.false_or] at hany
      cases hlv : lookupV mapping name with
      | some v =>
        have hm : type_matches v t = true := by
          have := hall.1
          dsimp only at this
          rw [hlv] at this
          exact this
        dsimp only
        rw [hm]
        simp only [Bool.not_true, Bool.false_eq_true, if_false]
        obtain ⟨n, heq, hany'⟩ := ih hall.2 hany
        refine ⟨n, heq, ?_⟩
        rw [List.any_cons, hany']
        simp
      | none =>
        obtain ⟨n, heq, hany'⟩ := ih hall.2 hany
        refine ⟨n, heq, ?_⟩
        rw [List.any_cons, hany']
        simp

/-- A class whose required attributes are `a : int` and `b : str`. -/
def specC8 : CtorSpec :=
  ⟨"Pair", ["self", "a", "b"], [("a", .tInt), ("b", .tStr)], 0⟩

/-- A registry holding a class with one required attribute,
`name : str`. -/
def regC8 : Registry := [plainClass "Person" [] [("name", .tStr, true)]]

/-- The mapping node `{nmae: x}`: the required key `name` misspelled. -/
def nodeNmae : YNode :=
  .mapping mapTag [(.scalar strTag "nmae", .scalar strTag "x")]

/-- Counterexample to C8 as stated: for the class `Pair` with required
attributes `a : int` and `b : str`, the mapping `{a: "x"}` is missing
the required attribute `b`, yet construction fails with a type error
about `a` — `__check_no_missing_attributes` interleaves the per-attribute
missing check and type check in declaration order, so the earlier
mistyped `a` wins and the error does not name the missing attribute. -/
theorem c8_counterexample :
    ("b", TypeDesc.tStr, true) ∈ class_subobjects specC8 ∧
    (mapKeys [("a", CVal.vStr "x")]).contains "b" = false ∧
    check_no_missing_attributes specC8 [("a", .vStr "x")] =
      some ("Attribute a has incorrect type <class 'str'>,"
        ++ " expecting a <class 'int'>") ∧
    ("Attribute a has incorrect type <class 'str'>,"
        ++ " expecting a <class 'int'>") ≠
      "Missing attribute b needed for constructing a Pair" :=
  ⟨by
    rw [show class_subobjects specC8 =
      [("a", .tInt, true), ("b", .tStr, true)] from rfl]
    exact List.mem_cons_of_mem _ (List.mem_singleton_self _),
   rfl, rfl, by decide⟩

/-- C8, amended: (first conjunct) when every declared attribute present
in the mapping matches its declared type and some required attribute is
absent from the mapping's keys, `__check_no_missing_attributes` fails
with a `Missing attribute` error naming a declared required attribute
that is indeed absent; (second conjunct) every near-miss suggestion the
missing-key diagnostic draws from `difflib.get_close_matches` is a key
actually present; (third and fourth conjuncts, concretely) recognizing
`Person` — required key `name` — against the mapping `{nmae: x}` fails
with the `diagnose_missing_key` message suggesting `nmae` as the likely
intended spelling of `name`. -/
theorem c8_missing_attr_diagnosis (spec : CtorSpec)
    (mapping : List (String × CVal))
    (htyped : (class_subobjects spec).all (fun x =>
      match lookupV mapping x.1 with
      | some v => type_matches v x.2.1
      | none => true) = true)
    (hmiss : (class_subobjects spec).any (fun x =>
      x.2.2 && !(mapKeys mapping).contains x.1) = true) :
    (∃ n, check_no_missing_attributes spec mapping =
        some ("Missing attribute " ++ n
          ++ " needed for constructing a " ++ spec.className) ∧
      (class_subobjects spec).any (fun x => x.1 == n && x.2.2
        && !(mapKeys mapping).contains x.1) = true) ∧
    (∀ word got s, s ∈ get_close_matches word got → s ∈ got) ∧
    recognize regC8 9 nodeNmae (.tClass "Person") =
      some ([], .mk "Failed to recognize a(n) Person"
        [.mk ("Expected a key \"name\" but it was not found."
          ++ " Maybe \"nmae\" was intended to be \"name\"? ") []],
        nodeNmae) ∧
    diagnose_missing_key "name" ["nmae"] [("name", .tStr, true)] =
      ("Expected a key \"name\" but it was not found."
        ++ " Maybe \"nmae\" was intended to be \"name\"? ") := by
  refine ⟨?_, ?_, rfl, rfl⟩
  · exact checkMissingLoop_missing spec.className mapping
      (class_subobjects spec) htyped hmiss
  · intro word got s h
    exact get_close_matches_subset word got s h

theorem c8_missing_attr_diagnosis_witness :
    ((∃ n, check_no_missing_attributes specC8 [("a", CVal.vInt 1)] =
        some ("Missing attribute " ++ n
          ++ " needed for constructing a " ++ specC8.className) ∧
      (class_subobjects specC8).any (fun x => x.1 == n && x.2.2
        && !(mapKeys [("a", CVal.vInt 1)]).contains x.1) = true) ∧
    (∀ word got s, s ∈ get_close_matches word got → s ∈ got) ∧
    recognize regC8 9 nodeNmae (.tClass "Person") =
      some ([], .mk "Failed to recognize a(n) Person"
        [.mk ("Expected a key \"name\" but it was not found."
          ++ " Maybe \"nmae\" was intended to be \"name\"? ") []],
        nodeNmae) ∧
    diagnose_missing_key "name" ["nmae"] [("name", .tStr, true)] =
      ("Expected a key \"name\" but it was not found."
        ++ " Maybe \"nmae\" was intended to be \"name\"? ")) :=
  c8_missing_attr_diagnosis specC8 [("a", .vInt 1)] (by rfl) (by rfl)

/-- The base-class fold only appends to the incoming trace. -/
theorem hookBasesFold_trace_ext
    (hk : String → YNode → Option (YNode × List String)) (reg : Registry) :
    ∀ (bs : List String) (node : YNode) (tr : List String)
      (n' : YNode) (tr' : List String),
      hookBasesFold hk reg bs node tr = some (n', tr') →
      ∃ ext, tr' = tr ++ ext := by
  intro bs
  induction bs with
  | nil =>
    intro node tr n' tr' h
    unfold hookBasesFold at h
    simp at h
    exact ⟨[], by rw [← h.2, List.append_nil]⟩
  | cons b rest ih =>
    intro node tr n' tr' h
    unfold hookBasesFold at h
    by_cases hr : isRegistered reg b = true
    · rw [if_pos hr] at h
      cases hb : hk b node with
      | none =>
        rw [hb] at h
        simp at h
      | some p =>
        obtain ⟨nb, trb⟩ := p
        rw [hb] at h
        simp only [Option.bind_eq_bind, Option.some_bind] at h
        obtain ⟨ext, hext⟩ := ih nb (tr ++ trb) n' tr' h
        exact ⟨trb ++ ext, by rw [hext, List.append_assoc]⟩
    · rw [if_neg hr] at h
      exact ih node tr n' tr' h

/-- One step of `Loader.__savorize`: the registered bases are processed
first by the fold, then the class's own hook (if any) is applied to the
fold's output node and the class's name is appended to the trace. -/
theorem savorize_step (reg : Registry) :
    ∀ (fuel : Nat) (cname : String) (node n' : YNode)
      (tr : List String) (ci : ClassInfo),
      savorize reg fuel cname node = some (n', tr) →
      lookupClass reg cname = some ci →
      ∃ f n₁ tr₁, fuel = f + 1 ∧
        hookBasesFold (savorize reg f) reg ci.bases node [] =
          some (n₁, tr₁) ∧
        ((ci.hasSavorizeAttr = true ∧ n' = ci.savorizeFn n₁ ∧
            tr = tr₁ ++ [cname]) ∨
         (ci.hasSavorizeAttr = false ∧ n' = n₁ ∧ tr = tr₁)) := by
  intro fuel
  cases fuel with
  | zero =>
    intro cname node n' tr ci h _
    simp [savorize] at h
  | succ f =>
    intro cname node n' tr ci h hci
    unfold savorize at h
    rw [hci] at h
    simp only [Option.map_some', Option.getD_some] at h
    cases hfold : hookBasesFold (savorize reg f) reg ci.bases node []
        with
    | none =>
      rw [hfold] at h
      simp at h
    | some p =>
      obtain ⟨n₁, tr₁⟩ := p
      rw [hfold] at h
      simp only [Option.bind_eq_bind, Option.some_bind] at h
      refine ⟨f, n₁, tr₁, rfl, hfold, ?_⟩
      by_cases hh : ci.hasSavorizeAttr = true
      · rw [if_pos hh] at h
        simp only [Option.some.injEq, Prod.mk.injEq] at h
        exact Or.inl ⟨hh, h.1.symm, h.2.symm⟩
      · rw [if_neg hh] at h
        simp only [Option.some.injEq, Prod.mk.injEq] at h
        exact Or.inr ⟨by simpa using hh, h.1.symm, h.2.symm⟩

/-- One step of `Representer.__sweeten`, analogous to `savorize_step`. -/
theorem sweeten_step (reg : Registry) :
    ∀ (fuel : Nat) (cname : String) (node n' : YNode)
      (tr : List String) (ci : ClassInfo),
      sweeten reg fuel cname node = some (n', tr) →
      lookupClass reg cname = some ci →
      ∃ f n₁ tr₁, fuel = f + 1 ∧
        hookBasesFold (sweeten reg f) reg ci.bases node [] =
          some (n₁, tr₁) ∧
        ((ci.hasOwnSweeten = true ∧ n' = ci.sweetenFn n₁ ∧
            tr = tr₁ ++ [cname]) ∨
         (ci.hasOwnSweeten = false ∧ n' = n₁ ∧ tr = tr₁)) := by
  intro fuel
  cases fuel with
  | zero =>
    intro cname node n' tr ci h _
    simp [sweeten] at h
  | succ f =>
    intro cname node n' tr ci h hci
    unfold sweeten at h
    rw [hci] at h
    simp only [Option.map_some', Option.getD_some] at h
    cases hfold : hookBasesFold (sweeten reg f) reg ci.bases node []
        with
    | none =>
      rw [hfold] at h
      simp at h
    | some p =>
      obtain ⟨n₁, tr₁⟩ := p
      rw [hfold] at h
      simp only [Option.bind_eq_bind, Option.some_bind] at h
      refine ⟨f, n₁, tr₁, rfl, hfold, ?_⟩
      by_cases hh : ci.hasOwnSweeten = true
      · rw [if_pos hh] at h
        simp only [Option.some.injEq, Prod.mk.injEq] at h
        exact Or.inl ⟨hh, h.1.symm, h.2.symm⟩
      · rw [if_neg hh] at h
        simp only [Option.some.injEq, Prod.mk.injEq] at h
        exact Or.inr ⟨by simpa using hh, h.1.symm, h.2.symm⟩

/-- In the savorize base fold, every registered base with a
`yatiml_savorize` hook gets its name into the trace: its hook was
invoked during the pass. -/
theorem hookBasesFold_savorize_mem (reg : Registry) (f : Nat) :
    ∀ (bs : List String) (node : YNode) (acc : List String)
      (n' : YNode) (tr' : List String),
      hookBasesFold (savorize reg f) reg bs node acc = some (n', tr') →
      ∀ b cb, b ∈ bs → lookupClass reg b = some cb →
        cb.hasSavorizeAttr = true → b ∈ tr' := by
  intro bs
  induction bs with
  | nil =>
    intro node acc n' tr' h b cb hb
    simp at hb
  | cons b0 rest ih =>
    intro node acc n' tr' h b cb hb hcb hhook
    unfold hookBasesFold at h
    by_cases hr : isRegistered reg b0 = true
    · rw [if_pos hr] at h
      cases hs : savorize reg f b0 node with
      | none =>
        rw [hs] at h
        simp at h
      | some p =>
        obtain ⟨nb, trb⟩ := p
        rw [hs] at h
        simp only [Option.bind_eq_bind, Option.some_bind] at h
        rcases List.mem_cons.mp hb with hb0 | hbr
        · subst hb0
          obtain ⟨f', n₁, tr₁, _, _, hcase⟩ :=
            savorize_step reg f b node nb trb cb hs hcb
          have hbmem : b ∈ trb := by
            rcases hcase with ⟨_, _, htr⟩ | ⟨hno, _, _⟩
            · rw [htr]
              exact List.mem_append_right _ (List.mem_singleton_self _)
            · rw [hhook] at hno
              exact absurd hno (by decide)
          obtain ⟨ext, hext⟩ := hookBasesFold_trace_ext _ reg rest nb
            (acc ++ trb) n' tr' h
          rw [hext]
          exact List.mem_append_left _ (List.mem_append_right _ hbmem)
        · exact ih nb (acc ++ trb) n' tr' h b cb hbr hcb hhook
    · rw [if_neg hr] at h
      rcases List.mem_cons.mp hb with hb0 | hbr
      · subst hb0
        have : isRegistered reg b = true := by
          unfold isRegistered
          rw [hcb]
          rfl
        exact absurd this hr
      · exact ih node acc n' tr' h b cb hbr hcb hhook

/-- In the sweeten base fold, every registered base with its own
`_yatiml_sweeten` hook gets its name into the trace. -/
theorem hookBasesFold_sweeten_mem (reg : Registry) (f : Nat) :
    ∀ (bs : List String) (node : YNode) (acc : List String)
      (n' : YNode) (tr' : List String),
      hookBasesFold (sweeten reg f) reg bs node acc = some (n', tr') →
      ∀ b cb, b ∈ bs → lookupClass reg b = some cb →
        cb.hasOwnSweeten = true → b ∈ tr' := by
  intro bs
  induction bs with
  | nil =>
    intro node acc n' tr' h b cb hb
    simp at hb
  | cons b0 rest ih =>
    intro node acc n' tr' h b cb hb hcb hhook
    unfold hookBasesFold at h
    by_cases hr : isRegistered reg b0 = true
    · rw [if_pos hr] at h
      cases hs : sweeten reg f b0 node with
      | none =>
        rw [hs] at h
        simp at h
      | some p =>
        obtain ⟨nb, trb⟩ := p
        rw [hs] at h
        simp only [Option.bind_eq_bind, Option.some_bind] at h
        rcases List.mem_cons.mp hb with hb0 | hbr
        · subst hb0
          obtain ⟨f', n₁, tr₁, _, _, hcase⟩ :=
            sweeten_step reg f b node nb trb cb hs hcb
          have hbmem : b ∈ trb := by
            rcases hcase with ⟨_, _, htr⟩ | ⟨hno, _, _⟩
            · rw [htr]
              exact List.mem_append_right _ (List.mem_singleton_self _)
            · rw [hhook] at hno
              exact absurd hno (by decide)
          obtain ⟨ext, hext⟩ := hookBasesFold_trace_ext _ reg rest nb
            (acc ++ trb) n' tr' h
          rw [hext]
          exact List.mem_append_left _ (List.mem_append_right _ hbmem)
        · exact ih nb (acc ++ trb) n' tr' h b cb hbr hcb hhook
    · rw [if_neg hr] at h
      rcases List.mem_cons.mp hb with hb0 | hbr
      · subst hb0
        have : isRegistered reg b = true := by
          unfold isRegistered
          rw [hcb]
          rfl
        exact absurd this hr
      · exact ih node acc n' tr' h b cb hbr hcb hhook

/-- A registered class with both a `yatiml_savorize` and a
`_yatiml_sweeten` hook. -/
def hookedClass (name : String) (bases : List String)
    (sav : YNode → YNode) (sw : YNode → YNode) : ClassInfo :=
  ⟨name, bases, false, false, false, false, noHook, [], true, sav,
    true, sw⟩

/-- A three-class chain `A ← B ← C`, each class wrapping the node in a
tagged sequence in its savorize and sweeten hooks, so the composition
order is visible in the result. -/
def regC9 : Registry :=
  [hookedClass "A" [] (fun n => .sequence "savA" [n])
    (fun n => .sequence "swA" [n]),
   hookedClass "B" ["A"] (fun n => .sequence "savB" [n])
    (fun n => .sequence "swB" [n]),
   hookedClass "C" ["B"] (fun n => .sequence "savC" [n])
    (fun n => .sequence "swC" [n])]

/-- An empty mapping to feed the hook chains. -/
def node0 : YNode := .mapping mapTag []

/-- C9: savorize and sweeten both run hooks base-first,
most-derived-last.  Universally (first two conjuncts): when the pass on
class `cname` succeeds and the class has its own hook, the hook
invocation trace ends with `cname` itself, the class's hook is applied
to the node exactly as produced by the base pass, and every registered
direct base with a hook of its own was invoked during that base pass
(its name is in the trace before `cname`).  Concretely (last two
conjuncts): on the chain `A ← B ← C`, both passes invoke the hooks in
the order `A`, `B`, `C`, and `C`'s hook observes the node already
wrapped by `A`'s and then `B`'s hook. -/
theorem c9_hook_ordering :
    (∀ (reg : Registry) (fuel : Nat) (cname : String) (node n' : YNode)
        (tr : List String) (ci : ClassInfo),
      savorize reg fuel cname node = some (n', tr) →
      lookupClass reg cname = some ci →
      ci.hasSavorizeAttr = true →
      ∃ n₁ tr₁, tr = tr₁ ++ [cname] ∧ n' = ci.savorizeFn n₁ ∧
        (∀ b cb, b ∈ ci.bases → lookupClass reg b = some cb →
          cb.hasSavorizeAttr = true → b ∈ tr₁)) ∧
    (∀ (reg : Registry) (fuel : Nat) (cname : String) (node n' : YNode)
        (tr : List String) (ci : ClassInfo),
      sweeten reg fuel cname node = some (n', tr) →
      lookupClass reg cname = some ci →
      ci.hasOwnSweeten = true →
      ∃ n₁ tr₁, tr = tr₁ ++ [cname] ∧ n' = ci.sweetenFn n₁ ∧
        (∀ b cb, b ∈ ci.bases → lookupClass reg b = some cb →
          cb.hasOwnSweeten = true → b ∈ tr₁)) ∧
    savorize regC9 5 "C" node0 =
      some (.sequence "savC" [.sequence "savB" [.sequence "savA"
        [node0]]], ["A", "B", "C"]) ∧
    sweeten regC9 5 "C" node0 =
      some (.sequence "swC" [.sequence "swB" [.sequence "swA"
        [node0]]], ["A", "B", "C"]) := by
  refine ⟨?_, ?_, rfl, rfl⟩
  · intro reg fuel cname node n' tr ci h hci hhook
    obtain ⟨f, n₁, tr₁, hf, hfold, hcase⟩ :=
      savorize_step reg fuel cname node n' tr ci h hci
    rcases hcase with ⟨_, hn, htr⟩ | ⟨hno, _, _⟩
    · exact ⟨n₁, tr₁, htr, hn,
        fun b cb hb hcb hh =>
          hookBasesFold_savorize_mem reg f ci.bases node [] n₁ tr₁
            hfold b cb hb hcb hh⟩
    · rw [hhook] at hno
      exact absurd hno (by decide)
  · intro reg fuel cname node n' tr ci h hci hhook
    obtain ⟨f, n₁, tr₁, hf, hfold, hcase⟩ :=
      sweeten_step reg fuel cname node n' tr ci h hci
    rcases hcase with ⟨_, hn, htr⟩ | ⟨hno, _, _⟩
    · exact ⟨n₁, tr₁, htr, hn,
        fun b cb hb hcb hh =>
          hookBasesFold_sweeten_mem reg f ci.bases node [] n₁ tr₁
            hfold b cb hb hcb hh⟩
    · rw [hhook] at hno
      exact absurd hno (by decide)

theorem c9_hook_ordering_witness :
    ((∃ n₁ tr₁, (["A", "B", "C"] : List String) = tr₁ ++ ["C"] ∧
      YNode.sequence "savC" [.sequence "savB" [.sequence "savA"
        [node0]]] =
        (hookedClass "C" ["B"] (fun n => .sequence "savC" [n])
          (fun n => .sequence "swC" [n])).savorizeFn n₁ ∧
      (∀ b cb, b ∈ (hookedClass "C" ["B"]
            (fun n => .sequence "savC" [n])
            (fun n => .sequence "swC" [n])).bases →
        lookupClass regC9 b = some cb →
        cb.hasSavorizeAttr = true → b ∈ tr₁))) :=
  (c9_hook_ordering.1) regC9 5 "C" node0
    (.sequence "savC" [.sequence "savB" [.sequence "savA" [node0]]])
    ["A", "B", "C"]
    (hookedClass "C" ["B"] (fun n => .sequence "savC" [n])
      (fun n => .sequence "swC" [n]))
    (by rfl) (by rfl) (by rfl)

/-- Soundness of the set-membership test for class descriptors. -/
theorem tdContains_tClass_mem {s : List TypeDesc} {y : String}
    (h : tdContains s (.tClass y) = true) : .tClass y ∈ s := by
  unfold tdContains at h
  rw [List.any_eq_true] at h
  obtain ⟨x, hx, hbeq⟩ := h
  rw [← mem_of_tdBeq_tClass hbeq]
  exact hx

/-- Candidate resolution never invents a candidate: its result set is a
subset of the incoming candidate set. -/
theorem resolveCandidates_subset (reg : Registry) (node : YNode)
    (cname : String) (cands : List TypeDesc) (causes : List RecErr) :
    ∀ x ∈ (resolveCandidates reg node cname cands causes).1,
      x ∈ cands := by
  intro x hx
  unfold resolveCandidates at hx
  split at hx
  · simp at hx
  · split at hx
    · split at hx
      · split at hx
        · simp at hx
          rw [hx]
          next h _ hcont => exact tdContains_tClass_mem hcont
        · exact hx
      · exact hx
    · split at hx
      · split at hx
        · split at hx
          · simp at hx
          · exact hx
        · simp at hx
      · exact hx

/-- If every recursive subclass recognition only produces classes of
rank strictly below the expected class, so does the whole collection
loop. -/
theorem collectLoop_rank (recUC : UCFn) (cname : String)
    (rank : String → Nat) (scan : List ClassInfo)
    (hstep : ∀ ci ∈ scan, ci.bases.contains cname = true →
      ∀ n s₀ e₀ n'', recUC n ci.name false = some (s₀, e₀, n'') →
      ∀ x ∈ s₀, ∃ d, x = .tClass d ∧ rank d < rank cname) :
    ∀ node acc causes s cs n',
      (∀ x ∈ acc, ∃ d, x = .tClass d ∧ rank d < rank cname) →
      collectLoop recUC scan cname node acc causes = some (s, cs, n') →
      ∀ x ∈ s, ∃ d, x = .tClass d ∧ rank d < rank cname := by
  induction scan with
  | nil =>
    intro node acc causes s cs n' hacc h
    unfold collectLoop at h
    simp at h
    rw [← h.1]
    exact hacc
  | cons ci rest ih =>
    intro node acc causes s cs n' hacc h
    unfold collectLoop at h
    by_cases hb : ci.bases.contains cname = true
    · rw [if_pos hb] at h
      cases hr : recUC node ci.name false with
      | none =>
        rw [hr] at h
        simp at h
      | some trip =>
        obtain ⟨r, result, node₁⟩ := trip
        rw [hr] at h
        simp only [Option.bind_eq_bind, Option.some_bind] at h
        refine ih (fun cj hcj => hstep cj (List.mem_cons_of_mem _ hcj))
          node₁ _ _ _ _ _ ?_ h
        intro x hx
        rcases mem_tdUnion hx with hx | hx
        · exact hacc x hx
        · exact hstep ci (List.mem_cons_self _ _) hb node r result
            node₁ hr x hx
    · rw [if_neg hb] at h
      exact ih (fun cj hcj => hstep cj (List.mem_cons_of_mem _ hcj))
        node _ _ _ _ _ hacc h

/-- Under an acyclic class hierarchy (witnessed by a rank function that
strictly decreases from a class to each of its declared bases' derived
classes), class recognition only ever returns class descriptors, each of
a class of rank at most that of the expected class. -/
theorem recFuel_rank (reg : Registry) (rank : String → Nat)
    (hrank : ∀ ci ∈ reg, ∀ b ∈ ci.bases, rank ci.name < rank b) :
    ∀ fuel node cname top s e n',
      recFuel reg fuel (.uc node cname top) = some (s, e, n') →
      ∀ x ∈ s, ∃ d, x = .tClass d ∧ rank d ≤ rank cname := by
  intro fuel
  induction fuel with
  | zero =>
    intro node cname top s e n' h
    simp [recFuel] at h
  | succ f ih =>
    intro node cname top s e n' h
    rw [recFuel_uc_succ] at h
    unfold recognize_user_classes at h
    cases hcol : collectLoop (fun n c t => recFuel reg f (.uc n c t))
        reg cname node [] [] with
    | none =>
      rw [hcol] at h
      simp at h
    | some ctrip =>
      obtain ⟨subs, causes, n₁⟩ := ctrip
      have hstep : ∀ ci ∈ reg, ci.bases.contains cname = true →
          ∀ n s₀ e₀ n'',
          (fun n c t => recFuel reg f (.uc n c t)) n ci.name false =
            some (s₀, e₀, n'') →
          ∀ x ∈ s₀, ∃ d, x = .tClass d ∧ rank d < rank cname := by
        intro ci hci hb n s₀ e₀ n'' hr x hx
        obtain ⟨d, hd, hdr⟩ := ih n ci.name false s₀ e₀ n'' hr x hx
        have hlt : rank ci.name < rank cname :=
          hrank ci hci cname (List.elem_iff.mp hb)
        exact ⟨d, hd, lt_of_le_of_lt hdr hlt⟩
      have hsubs : ∀ x ∈ subs, ∃ d, x = .tClass d ∧ rank d < rank cname :=
        collectLoop_rank _ cname rank reg hstep node [] [] subs causes
          n₁ (by intro x hx; simp at hx) hcol
      rw [hcol] at h
      simp only [Option.bind_eq_bind, Option.some_bind] at h
      unfold leafStep at h
      by_cases h0 : subs.isEmpty = true
      · rw [if_pos h0] at h
        by_cases habs : is_abstract reg cname = true
        · rw [habs] at h
          simp only [Bool.not_true, Bool.false_eq_true, if_false,
            Option.some_bind, Option.some.injEq, Prod.mk.injEq] at h
          intro x hx
          rw [← h.1] at hx
          obtain ⟨d, hd, hdr⟩ := resolveCandidates_subset reg n₁ cname
            subs causes x hx |> hsubs x
          exact ⟨d, hd, le_of_lt hdr⟩
        · have habs' : is_abstract reg cname = false := by
            simpa using habs
          rw [habs'] at h
          simp only [Bool.not_false, if_true] at h
          cases hl : recognize_user_class
              (fun n t => recFuel reg f (.ty n t)) reg n₁ cname with
          | none =>
            rw [hl] at h
            simp at h
          | some ltrip =>
            obtain ⟨r, result, n₂⟩ := ltrip
            rw [hl] at h
            simp only [Option.bind_eq_bind, Option.some_bind,
              Option.some.injEq, Prod.mk.injEq] at h
            intro x hx
            rw [← h.1] at hx
            have hxr := resolveCandidates_subset reg n₂ cname r _ x hx
            rcases recognize_user_class_shape _ reg n₁ cname r result
                n₂ hl with hre | ⟨ci, hci, hre⟩
            · rw [hre] at hxr
              simp at hxr
            · rw [hre] at hxr
              rw [List.mem_singleton] at hxr
              refine ⟨ci.name, hxr, ?_⟩
              rw [lookupClass_name hci]
      · rw [if_neg h0] at h
        simp only [Option.some_bind, Option.some.injEq,
          Prod.mk.injEq] at h
        intro x hx
        rw [← h.1] at hx
        obtain ⟨d, hd, hdr⟩ := resolveCandidates_subset reg n₁ cname
          subs causes x hx |> hsubs x
        exact ⟨d, hd, le_of_lt hdr⟩

/-- A registry holding one abstract class with no subclasses. -/
def regAbs : Registry := [abstractClass "Abs" []]

/-- C1: subclass preference in class recognition, under an acyclic
class hierarchy (witnessed by a rank function strictly decreasing from
each registered class to its declared bases).  Writing `subs` for the
set collected from the registered subclasses of the expected class
`cname`: if some subclass recognized the node (`subs` nonempty), the
final result is a subset of `subs` and never contains `cname` itself
(first conjunct); if no subclass matched and `cname` is abstract, it
contributes no candidate of its own — the result is empty, with the
failure explanation carrying the subclasses' causes (second conjunct);
if no subclass matched and `cname` is not abstract, recognition falls
through to evaluating `cname` itself at the leaf level, and the final
result is a subset of that leaf result (third conjunct).  The final
conjunct shows the abstract-no-subclass case end to end on a concrete
registry. -/
theorem c1_subclass_preference (reg : Registry) (rank : String → Nat)
    (hrank : ∀ ci ∈ reg, ∀ b ∈ ci.bases, rank ci.name < rank b)
    (fuel : Nat) (node : YNode) (cname : String) (top : Bool)
    (s : List TypeDesc) (e : RecErr) (n' n₁ : YNode)
    (subs : List TypeDesc) (causes : List RecErr)
    (h : recognizeUC reg (fuel + 1) node cname top = some (s, e, n'))
    (hcol : collectSubclasses reg fuel node cname =
      some (subs, causes, n₁)) :
    ((subs ≠ [] → (∀ x ∈ s, x ∈ subs) ∧ .tClass cname ∉ s) ∧
    (subs = [] → is_abstract reg cname = true →
      s = [] ∧ e = .mk ("Failed to recognize "
        ++ type_to_desc (.tClass cname)) causes ∧ e.msg ≠ "") ∧
    (subs = [] → is_abstract reg cname = false →
      ∃ r result n₂,
        recognize_user_class (fun n t => recFuel reg fuel (.ty n t))
          reg n₁ cname = some (r, result, n₂) ∧
        ∀ x ∈ s, x ∈ r)) ∧
    recognize regAbs 3 (.mapping mapTag []) (.tClass "Abs") =
      some ([], .mk "Failed to recognize a(n) Abs" [],
        .mapping mapTag []) := by
  refine ⟨?_, rfl⟩
  unfold collectSubclasses at hcol
  unfold recognizeUC at h
  rw [recFuel_uc_succ] at h
  unfold recognize_user_classes at h
  rw [hcol] at h
  simp only [Option.bind_eq_bind, Option.some_bind] at h
  unfold leafStep at h
  have hsubs : ∀ x ∈ subs, ∃ d, x = .tClass d ∧ rank d < rank cname := by
    refine collectLoop_rank _ cname rank reg ?_ node [] [] subs causes
      n₁ (by intro x hx; simp at hx) hcol
    intro ci hci hb n s₀ e₀ n'' hr x hx
    obtain ⟨d, hd, hdr⟩ :=
      recFuel_rank reg rank hrank fuel n ci.name false s₀ e₀ n'' hr x hx
    exact ⟨d, hd, lt_of_le_of_lt hdr
      (hrank ci hci cname (List.elem_iff.mp hb))⟩
  refine ⟨?_, ?_, ?_⟩
  · intro hne
    have h0 : subs.isEmpty = false := by
      cases subs with
      | nil => exact absurd rfl hne
      | cons a l => rfl
    rw [h0] at h
    simp only [Bool.false_eq_true, if_false, Option.some_bind,
      Option.some.injEq, Prod.mk.injEq] at h
    have hsub : ∀ x ∈ s, x ∈ subs := by
      intro x hx
      rw [← h.1] at hx
      exact resolveCandidates_subset reg n₁ cname subs causes x hx
    refine ⟨hsub, ?_⟩
    intro hmem
    obtain ⟨d, hd, hdr⟩ := hsubs _ (hsub _ hmem)
    have : d = cname := by
      injection hd with h'
      exact h'.symm
    rw [this] at hdr
    exact absurd hdr (lt_irrefl _)
  · intro hnil habs
    rw [hnil] at h
    rw [habs] at h
    simp only [List.isEmpty_nil, if_true, Bool.not_true,
      Bool.false_eq_true, if_false, Option.some_bind, Option.some.injEq,
      Prod.mk.injEq] at h
    have hres : resolveCandidates reg n₁ cname [] causes =
        ([], .mk ("Failed to recognize " ++ type_to_desc (.tClass cname))
          causes) := by
      unfold resolveCandidates
      simp
    rw [hres] at h
    refine ⟨h.1.symm, h.2.1.symm, ?_⟩
    rw [← h.2.1]
    exact append_ne_empty_of_left "Failed to recognize " _ (by decide)
  · intro hnil habs
    rw [hnil] at h
    rw [habs] at h
    simp only [List.isEmpty_nil, if_true, Bool.not_false,
      Option.some_bind] at h
    cases hl : recognize_user_class
        (fun n t => recFuel reg fuel (.ty n t)) reg n₁ cname with
    | none =>
      rw [hl] at h
      simp at h
    | some ltrip =>
      obtain ⟨r, result, n₂⟩ := ltrip
      rw [hl] at h
      simp only [Option.bind_eq_bind, Option.some_bind,
        Option.some.injEq, Prod.mk.injEq] at h
      refine ⟨r, result, n₂, rfl, ?_⟩
      intro x hx
      rw [← h.1] at hx
      exact resolveCandidates_subset reg n₂ cname r _ x hx

theorem c1_subclass_preference_witness :
    (∀ x ∈ [TypeDesc.tClass "A", TypeDesc.tClass "B"],
        x ∈ [TypeDesc.tClass "A", TypeDesc.tClass "B"]) ∧
    TypeDesc.tClass "P" ∉ [TypeDesc.tClass "A", TypeDesc.tClass "B"] :=
  ((c1_subclass_preference regC4 (fun n => if n == "P" then 1 else 0)
      (by decide) 9 (.mapping mapTag []) "P" true
      [.tClass "A", .tClass "B"]
      (.mk ("Could not determine which of the following types this is:"
        ++ " a(n) A or a(n) B")
        [.mk "Failed to recognize a(n) X" [.mk "Not an X" []]])
      (.mapping mapTag []) (.mapping mapTag [])
      [.tClass "A", .tClass "B"]
      [.mk "Failed to recognize a(n) X" [.mk "Not an X" []]]
      (by rfl) (by rfl)).1).1 (List.cons_ne_nil _ _)
